import Mathlib

/-
Verification of the core consensus components of the `core-rs-albatross`
repository against its natural-language specification.

The Rust sources are embedded shallowly:
* machine integers (`u32`, `u64`) become `Nat` (none of the verified code
  paths can overflow their 64-bit ranges on the inputs considered, and the
  arithmetic involved is plain comparisons, additions and subtractions on
  amounts that the contract keeps balanced);
* cryptographic primitives (hashes, Schnorr/BLS signatures, VRF seeds) are
  consumed by the embedded code exactly as the Rust code consumes them:
  through verification oracles.  They are bundled in a `Crypto` record of
  plain functions that the definitions take as a parameter, so every theorem
  quantifies over all possible oracle behaviours;
* fallible Rust functions returning `Result` become `Except`; Rust panics
  (`expect`, `assert_eq!`) are modelled by a dedicated `crash` outcome of a
  `TxResult` type so that they are never confused with ordinary errors;
* `BTreeMap`/`BTreeSet` become `Finmap`/`Finset` (extensional finite maps
  and sets with decidable equality, matching the by-content equality of the
  Rust types).
-/

namespace Albatross

/-! ## Section 1: equivocation proofs
Translated from `src/primitives/block/src/equivocation_proof.rs`. -/

/-- Micro block header. Only the fields that the equivocation-proof code reads
are modelled (`block_number` and `seed`); the field `rest` stands for the
remaining header content, so that two headers can differ while agreeing on
the modelled fields (the hash oracle sees the whole header). -/
structure MicroHeader where
  block_number : Nat
  seed : Nat
  rest : Nat
deriving DecidableEq

/-- Macro block header, as read by `DoubleProposalProof`: `block_number`,
`round` and `seed`, plus the opaque remaining content. -/
structure MacroHeader where
  block_number : Nat
  round : Nat
  seed : Nat
  rest : Nat
deriving DecidableEq

/-- Round and block height information of a Tendermint vote
(`TendermintIdentifier`). -/
structure TendermintIdentifier where
  block_number : Nat
  round : Nat
deriving DecidableEq

/-- The message signed by a Tendermint vote (`TendermintVote`). -/
structure TendermintVote where
  proposal_hash : Option Nat
  id : TendermintIdentifier
deriving DecidableEq

/-- The cryptographic oracles the equivocation-proof code consumes:
Blake2b hashing of headers, VRF-seed entropy extraction and verification,
Schnorr signature verification (against a header hash) and BLS
aggregate-signature verification (against a Tendermint vote).  Keys,
signatures, seeds and hash values are abstracted as `Nat`. -/
structure Crypto where
  microHash : MicroHeader → Nat
  macroHash : MacroHeader → Nat
  entropy : Nat → Nat
  vrfVerify : Nat → Nat → Nat → Bool
  schnorrVerify : Nat → Nat → Nat → Bool
  aggVerify : List Nat → TendermintVote → Nat → Bool

/-- Possible equivocation proof validation errors
(`EquivocationProofError`). -/
inductive EquivocationProofError where
  | SlotMismatch
  | InvalidJustification
  | InvalidValidatorAddress
  | SameHeader
  | WrongOrder
deriving DecidableEq

/-- Fork proof: two micro headers with their Schnorr justifications and the
previous VRF seed (`ForkProof`). -/
structure ForkProof where
  header1 : MicroHeader
  header2 : MicroHeader
  justification1 : Nat
  justification2 : Nat
  prev_vrf_seed : Nat
deriving DecidableEq

/-- Constructor `ForkProof::new`: swaps the two header/justification pairs
when `hash(header1) > hash(header2)`. -/
def ForkProof.new (c : Crypto) (header1 : MicroHeader) (justification1 : Nat)
    (header2 : MicroHeader) (justification2 : Nat) (prev_vrf_seed : Nat) : ForkProof :=
  if c.microHash header2 < c.microHash header1 then
    ⟨header2, header1, justification2, justification1, prev_vrf_seed⟩
  else
    ⟨header1, header2, justification1, justification2, prev_vrf_seed⟩

/-- Verification of a fork proof, `ForkProof::verify`: ordering check on the
header hashes, block-number/VRF-entropy equality, VRF-seed verification, and
the two Schnorr signatures. -/
def ForkProof.verify (c : Crypto) (p : ForkProof) (signing_key : Nat) :
    Except EquivocationProofError Unit :=
  let hash1 := c.microHash p.header1
  let hash2 := c.microHash p.header2
  match compare hash1 hash2 with
  | .eq => .error .SameHeader
  | .gt => .error .WrongOrder
  | .lt =>
    if p.header1.block_number != p.header2.block_number
        || c.entropy p.header1.seed != c.entropy p.header2.seed then
      .error .SlotMismatch
    else if !c.vrfVerify p.header1.seed p.prev_vrf_seed signing_key then
      .error .InvalidJustification
    else if !(c.schnorrVerify signing_key p.justification1 hash1
        && c.schnorrVerify signing_key p.justification2 hash2) then
      .error .InvalidJustification
    else
      .ok ()

/-- Double proposal proof (`DoubleProposalProof`): two macro headers, their
justifications, and one previous VRF seed per header. -/
structure DoubleProposalProof where
  header1 : MacroHeader
  header2 : MacroHeader
  justification1 : Nat
  justification2 : Nat
  prev_vrf_seed1 : Nat
  prev_vrf_seed2 : Nat
deriving DecidableEq

/-- Constructor `DoubleProposalProof::new`: swaps headers, justifications and
seeds when `hash(header1) > hash(header2)`. -/
def DoubleProposalProof.new (c : Crypto) (header1 : MacroHeader) (justification1 : Nat)
    (prev_vrf_seed1 : Nat) (header2 : MacroHeader) (justification2 : Nat)
    (prev_vrf_seed2 : Nat) : DoubleProposalProof :=
  if c.macroHash header2 < c.macroHash header1 then
    ⟨header2, header1, justification2, justification1, prev_vrf_seed2, prev_vrf_seed1⟩
  else
    ⟨header1, header2, justification1, justification2, prev_vrf_seed1, prev_vrf_seed2⟩

/-- Verification of a double proposal proof, `DoubleProposalProof::verify`. -/
def DoubleProposalProof.verify (c : Crypto) (p : DoubleProposalProof) (signing_key : Nat) :
    Except EquivocationProofError Unit :=
  let hash1 := c.macroHash p.header1
  let hash2 := c.macroHash p.header2
  match compare hash1 hash2 with
  | .eq => .error .SameHeader
  | .gt => .error .WrongOrder
  | .lt =>
    if p.header1.block_number != p.header2.block_number
        || p.header1.round != p.header2.round
        || c.entropy p.header1.seed != c.entropy p.header2.seed then
      .error .SlotMismatch
    else if !c.vrfVerify p.header1.seed p.prev_vrf_seed1 signing_key then
      .error .InvalidJustification
    else if !c.vrfVerify p.header2.seed p.prev_vrf_seed2 signing_key then
      .error .InvalidJustification
    else if !(c.schnorrVerify signing_key p.justification1 hash1
        && c.schnorrVerify signing_key p.justification2 hash2) then
      .error .InvalidJustification
    else
      .ok ()

/-- The `Ord` instance of Rust `Option<Blake2sHash>`: `None` sorts before
`Some`, two `Some`s compare by content. -/
def ocmp : Option Nat → Option Nat → Ordering
  | none, none => .eq
  | none, some _ => .lt
  | some _, none => .gt
  | some a, some b => compare a b

/-- One validator of a `Validators` list as read by `DoubleVoteProof::verify`:
its address and its assigned slots. -/
structure ValidatorEntry where
  address : Nat
  slots : List Nat
deriving DecidableEq

/-- The active validator set (`Validators`): the validator entries and the
per-slot voting keys returned by `voting_keys()`. -/
structure Validators where
  entries : List ValidatorEntry
  voting_keys : List Nat
deriving DecidableEq

/-- `Validators::get_validator_by_address`. -/
def Validators.get_validator_by_address (vs : Validators) (a : Nat) : Option ValidatorEntry :=
  vs.entries.find? (fun v => v.address == a)

/-- The aggregate public key built by `DoubleVoteProof::verify`: the voting
keys whose index is contained in the signer bitset. -/
def aggregate_public_key (keys : List Nat) (signers : List Nat) : List Nat :=
  (keys.enum.filter (fun q => signers.contains q.1)).map (fun q => q.2)

/-- Double vote proof (`DoubleVoteProof`): a Tendermint identifier, the
offending validator's address, the two proposal hashes with their aggregate
signatures and signer bitsets (bitsets as lists of slot indices). -/
structure DoubleVoteProof where
  tendermint_id : TendermintIdentifier
  validator_address : Nat
  proposal_hash1 : Option Nat
  proposal_hash2 : Option Nat
  signature1 : Nat
  signature2 : Nat
  signers1 : List Nat
  signers2 : List Nat
deriving DecidableEq

/-- Constructor `DoubleVoteProof::new`: swaps the hash/signature/signers
triples when `proposal_hash1 > proposal_hash2` (Rust `Option` ordering). -/
def DoubleVoteProof.new (tendermint_id : TendermintIdentifier) (validator_address : Nat)
    (proposal_hash1 proposal_hash2 : Option Nat) (signature1 signature2 : Nat)
    (signers1 signers2 : List Nat) : DoubleVoteProof :=
  if ocmp proposal_hash1 proposal_hash2 == .gt then
    ⟨tendermint_id, validator_address, proposal_hash2, proposal_hash1,
      signature2, signature1, signers2, signers1⟩
  else
    ⟨tendermint_id, validator_address, proposal_hash1, proposal_hash2,
      signature1, signature2, signers1, signers2⟩

/-- Verification of a double vote proof, `DoubleVoteProof::verify`: ordering
check on the proposal hashes, validator lookup, the requirement that one of
the validator's slots occurs in both signer bitsets, and the two aggregate
signatures. -/
def DoubleVoteProof.verify (c : Crypto) (p : DoubleVoteProof) (validators : Validators) :
    Except EquivocationProofError Unit :=
  match ocmp p.proposal_hash1 p.proposal_hash2 with
  | .eq => .error .SameHeader
  | .gt => .error .WrongOrder
  | .lt =>
    match validators.get_validator_by_address p.validator_address with
    | none => .error .InvalidValidatorAddress
    | some validator =>
      if !validator.slots.any (fun s => p.signers1.contains s && p.signers2.contains s) then
        .error .SlotMismatch
      else if !c.aggVerify (aggregate_public_key validators.voting_keys p.signers1)
          ⟨p.proposal_hash1, p.tendermint_id⟩ p.signature1 then
        .error .InvalidJustification
      else if !c.aggVerify (aggregate_public_key validators.voting_keys p.signers2)
          ⟨p.proposal_hash2, p.tendermint_id⟩ p.signature2 then
        .error .InvalidJustification
      else
        .ok ()

/-- The sum type `EquivocationProof`. -/
inductive EquivocationProof where
  | Fork (proof : ForkProof)
  | DoubleProposal (proof : DoubleProposalProof)
  | DoubleVote (proof : DoubleVoteProof)
deriving DecidableEq

/-- `EquivocationProof::block_number`. -/
def EquivocationProof.block_number : EquivocationProof → Nat
  | .Fork proof => proof.header1.block_number
  | .DoubleProposal proof => proof.header1.block_number
  | .DoubleVote proof => proof.tendermint_id.block_number

/-- `EquivocationProof::is_valid_at`.  `Policy::last_block_of_reporting_window`
and `Policy::batch_at` are not among the source files, so they enter as the
function parameters `lbrw` and `batchAt`; the body is the exact translation
of the source conjunction. -/
def EquivocationProof.is_valid_at (lbrw batchAt : Nat → Nat)
    (p : EquivocationProof) (block_number : Nat) : Bool :=
  decide (block_number ≤ lbrw p.block_number)
    && decide (batchAt p.block_number ≤ batchAt block_number)

end Albatross

namespace Albatross

/-- Sample fork proof used to instantiate hypotheses of reporting-window
theorems on concrete inputs. -/
def sampleForkProof : ForkProof := ⟨⟨3, 0, 0⟩, ⟨3, 0, 1⟩, 0, 0, 0⟩

/-- Sample equivocation proof wrapping `sampleForkProof`. -/
def sampleProof : EquivocationProof := .Fork sampleForkProof

/-- C3: `EquivocationProof::is_valid_at h` returns `true` if and only if `h`
is at most `last_block_of_reporting_window` of the offense block number and
the batch of `h` is at least the batch of the offense block; in particular
every `h` beyond the reporting window is reported invalid, independently of
any signature data. -/
theorem is_valid_at_characterization (lbrw batchAt : Nat → Nat)
    (p : EquivocationProof) (h : Nat) :
    (EquivocationProof.is_valid_at lbrw batchAt p h = true ↔
      (h ≤ lbrw p.block_number ∧ batchAt p.block_number ≤ batchAt h)) ∧
    (lbrw p.block_number < h →
      EquivocationProof.is_valid_at lbrw batchAt p h = false) := by
  constructor
  · simp [EquivocationProof.is_valid_at]
  · intro hgt
    simp [EquivocationProof.is_valid_at, Nat.not_le.2 hgt]

/-- Witness for C3 at a concrete policy, proof and height. -/
theorem is_valid_at_witness :
    EquivocationProof.is_valid_at (fun n => n + 24) (fun n => n / 6) sampleProof 100 = false :=
  (is_valid_at_characterization (fun n => n + 24) (fun n => n / 6) sampleProof 100).2 (by decide)

end Albatross

namespace Albatross

/-- Reference statement of the fork-proof verification contract in the
claim's own terms: equal header hashes give `SameHeader`, out-of-order
hashes give `WrongOrder`, a block-number or VRF-entropy mismatch gives
`SlotMismatch`, a failing VRF seed or a failing Schnorr signature gives
`InvalidJustification`, otherwise the proof verifies. -/
def forkVerifyContract (c : Crypto) (p : ForkProof) (signing_key : Nat) :
    Except EquivocationProofError Unit :=
  let hash1 := c.microHash p.header1
  let hash2 := c.microHash p.header2
  if hash1 = hash2 then .error .SameHeader
  else if hash2 < hash1 then .error .WrongOrder
  else if p.header1.block_number != p.header2.block_number
      || c.entropy p.header1.seed != c.entropy p.header2.seed then .error .SlotMismatch
  else if !(c.vrfVerify p.header1.seed p.prev_vrf_seed signing_key
      && c.schnorrVerify signing_key p.justification1 hash1
      && c.schnorrVerify signing_key p.justification2 hash2) then .error .InvalidJustification
  else .ok ()

/-- Reference statement of the double-proposal verification contract in the
claim's terms, analogous to `forkVerifyContract` with the round compared as
well and one VRF seed verified per header. -/
def doubleProposalVerifyContract (c : Crypto) (p : DoubleProposalProof) (signing_key : Nat) :
    Except EquivocationProofError Unit :=
  let hash1 := c.macroHash p.header1
  let hash2 := c.macroHash p.header2
  if hash1 = hash2 then .error .SameHeader
  else if hash2 < hash1 then .error .WrongOrder
  else if p.header1.block_number != p.header2.block_number
      || p.header1.round != p.header2.round
      || c.entropy p.header1.seed != c.entropy p.header2.seed then .error .SlotMismatch
  else if !(c.vrfVerify p.header1.seed p.prev_vrf_seed1 signing_key
      && c.vrfVerify p.header2.seed p.prev_vrf_seed2 signing_key
      && c.schnorrVerify signing_key p.justification1 hash1
      && c.schnorrVerify signing_key p.justification2 hash2) then .error .InvalidJustification
  else .ok ()

/-- Reference statement of the double-vote verification contract in the
claim's terms: equal proposal hashes give `SameHeader`, out-of-order hashes
give `WrongOrder`, an unknown validator address gives
`InvalidValidatorAddress`, the absence of a validator slot contained in both
signer bitsets gives `SlotMismatch`, a failing aggregate signature gives
`InvalidJustification`, otherwise the proof verifies. -/
def doubleVoteVerifyContract (c : Crypto) (p : DoubleVoteProof) (validators : Validators) :
    Except EquivocationProofError Unit :=
  if ocmp p.proposal_hash1 p.proposal_hash2 = .eq then .error .SameHeader
  else if ocmp p.proposal_hash1 p.proposal_hash2 = .gt then .error .WrongOrder
  else match validators.get_validator_by_address p.validator_address with
    | none => .error .InvalidValidatorAddress
    | some validator =>
      if !validator.slots.any (fun s => p.signers1.contains s && p.signers2.contains s) then
        .error .SlotMismatch
      else if !(c.aggVerify (aggregate_public_key validators.voting_keys p.signers1)
            ⟨p.proposal_hash1, p.tendermint_id⟩ p.signature1
          && c.aggVerify (aggregate_public_key validators.voting_keys p.signers2)
            ⟨p.proposal_hash2, p.tendermint_id⟩ p.signature2) then
        .error .InvalidJustification
      else .ok ()

/-- The fork-proof verifier agrees with the contract statement. -/
theorem fork_verify_eq_contract (c : Crypto) (p : ForkProof) (k : Nat) :
    ForkProof.verify c p k = forkVerifyContract c p k := by
  simp only [ForkProof.verify, forkVerifyContract]
  rcases Nat.lt_trichotomy (c.microHash p.header1) (c.microHash p.header2) with hlt | heq | hgt
  · simp only [Nat.compare_eq_lt.2 hlt]
    rw [if_neg (Nat.ne_of_lt hlt), if_neg (Nat.lt_asymm hlt)]
    split
    · rfl
    · cases hva : c.vrfVerify p.header1.seed p.prev_vrf_seed k <;>
        cases hs1 : c.schnorrVerify k p.justification1 (c.microHash p.header1) <;>
        cases hs2 : c.schnorrVerify k p.justification2 (c.microHash p.header2) <;>
        rfl
  · simp only [Nat.compare_eq_eq.2 heq]
    rw [if_pos heq]
  · simp only [Nat.compare_eq_gt.2 hgt]
    rw [if_neg (Nat.ne_of_lt hgt).symm, if_pos hgt]

/-- The double-proposal verifier agrees with the contract statement. -/
theorem double_proposal_verify_eq_contract (c : Crypto) (p : DoubleProposalProof) (k : Nat) :
    DoubleProposalProof.verify c p k = doubleProposalVerifyContract c p k := by
  simp only [DoubleProposalProof.verify, doubleProposalVerifyContract]
  rcases Nat.lt_trichotomy (c.macroHash p.header1) (c.macroHash p.header2) with hlt | heq | hgt
  · simp only [Nat.compare_eq_lt.2 hlt]
    rw [if_neg (Nat.ne_of_lt hlt), if_neg (Nat.lt_asymm hlt)]
    split
    · rfl
    · cases hv1 : c.vrfVerify p.header1.seed p.prev_vrf_seed1 k <;>
        cases hv2 : c.vrfVerify p.header2.seed p.prev_vrf_seed2 k <;>
        cases hs1 : c.schnorrVerify k p.justification1 (c.macroHash p.header1) <;>
        cases hs2 : c.schnorrVerify k p.justification2 (c.macroHash p.header2) <;>
        rfl
  · simp only [Nat.compare_eq_eq.2 heq]
    rw [if_pos heq]
  · simp only [Nat.compare_eq_gt.2 hgt]
    rw [if_neg (Nat.ne_of_lt hgt).symm, if_pos hgt]

/-- The double-vote verifier agrees with the contract statement. -/
theorem double_vote_verify_eq_contract (c : Crypto) (p : DoubleVoteProof) (vs : Validators) :
    DoubleVoteProof.verify c p vs = doubleVoteVerifyContract c p vs := by
  simp only [DoubleVoteProof.verify, doubleVoteVerifyContract]
  cases ho : ocmp p.proposal_hash1 p.proposal_hash2
  · conv_rhs => rw [if_neg (show ¬(Ordering.lt = Ordering.eq) by simp),
      if_neg (show ¬(Ordering.lt = Ordering.gt) by simp)]
    cases hv : vs.get_validator_by_address p.validator_address
    · rfl
    · rename_i validator
      simp only
      split
      · rfl
      · cases h1 : c.aggVerify (aggregate_public_key vs.voting_keys p.signers1)
            ⟨p.proposal_hash1, p.tendermint_id⟩ p.signature1 <;>
          cases h2 : c.aggVerify (aggregate_public_key vs.voting_keys p.signers2)
            ⟨p.proposal_hash2, p.tendermint_id⟩ p.signature2 <;>
          rfl
  · rw [if_pos rfl]
  · conv_rhs => rw [if_neg (show ¬(Ordering.gt = Ordering.eq) by simp)]
    rfl

end Albatross

namespace Albatross

/-- Swapping the arguments of a strictly greater `ocmp` comparison yields a
strictly smaller one. -/
theorem ocmp_gt_swap (a b : Option Nat) (h : ocmp a b = .gt) : ocmp b a = .lt := by
  cases a <;> cases b <;> simp_all [ocmp, Nat.compare_eq_gt, Nat.compare_eq_lt]

/-- C5 (amended): every equivocation-proof constructor canonicalizes its pair
so that `hash(header1) ≤ hash(header2)` (for double votes,
`proposal_hash1 ≤ proposal_hash2` in the Rust `Option` order), and each
`verify` function checks, in this order of precedence: equal hashes
(`SameHeader`), out-of-order hashes (`WrongOrder`), then for fork and
double-proposal proofs a block-number/round/VRF-entropy mismatch
(`SlotMismatch`) followed by VRF-seed and Schnorr-signature verification
(`InvalidJustification`); for double votes an unknown validator address
(`InvalidValidatorAddress`), then the requirement that some assigned slot
lies in both signer bitsets (`SlotMismatch`), then the two aggregate
signatures (`InvalidJustification`); otherwise `Ok`. -/
theorem equivocation_proof_contract :
    (∀ (c : Crypto) (h1 : MicroHeader) (j1 : Nat) (h2 : MicroHeader) (j2 s : Nat),
      c.microHash (ForkProof.new c h1 j1 h2 j2 s).header1 ≤
        c.microHash (ForkProof.new c h1 j1 h2 j2 s).header2) ∧
    (∀ (c : Crypto) (h1 : MacroHeader) (j1 s1 : Nat) (h2 : MacroHeader) (j2 s2 : Nat),
      c.macroHash (DoubleProposalProof.new c h1 j1 s1 h2 j2 s2).header1 ≤
        c.macroHash (DoubleProposalProof.new c h1 j1 s1 h2 j2 s2).header2) ∧
    (∀ (id : TendermintIdentifier) (va : Nat) (p1 p2 : Option Nat) (g1 g2 : Nat)
        (b1 b2 : List Nat),
      (ocmp (DoubleVoteProof.new id va p1 p2 g1 g2 b1 b2).proposal_hash1
        (DoubleVoteProof.new id va p1 p2 g1 g2 b1 b2).proposal_hash2 == Ordering.gt) = false) ∧
    (∀ (c : Crypto) (p : ForkProof) (k : Nat),
      ForkProof.verify c p k = forkVerifyContract c p k) ∧
    (∀ (c : Crypto) (p : DoubleProposalProof) (k : Nat),
      DoubleProposalProof.verify c p k = doubleProposalVerifyContract c p k) ∧
    (∀ (c : Crypto) (p : DoubleVoteProof) (vs : Validators),
      DoubleVoteProof.verify c p vs = doubleVoteVerifyContract c p vs) := by
  refine ⟨?_, ?_, ?_, fork_verify_eq_contract, double_proposal_verify_eq_contract,
    double_vote_verify_eq_contract⟩
  · intro c h1 j1 h2 j2 s
    unfold ForkProof.new
    split
    · exact Nat.le_of_lt (by assumption)
    · exact Nat.le_of_not_lt (by assumption)
  · intro c h1 j1 s1 h2 j2 s2
    unfold DoubleProposalProof.new
    split
    · exact Nat.le_of_lt (by assumption)
    · exact Nat.le_of_not_lt (by assumption)
  · intro id va p1 p2 g1 g2 b1 b2
    unfold DoubleVoteProof.new
    split
    · rename_i hgt
      have hgt2 : ocmp p1 p2 = Ordering.gt := by
        cases hc : ocmp p1 p2
        · rw [hc] at hgt; exact absurd hgt (by decide)
        · rw [hc] at hgt; exact absurd hgt (by decide)
        · rfl
      have hswap := ocmp_gt_swap p1 p2 hgt2
      show (ocmp p2 p1 == Ordering.gt) = false
      rw [hswap]
      rfl
    · rename_i hngt
      simpa using hngt

/-- A sample crypto oracle on which all verifications succeed and hashing
reads the opaque part of the header. -/
def sampleCrypto : Crypto :=
  { microHash := fun h => h.rest
    macroHash := fun h => h.rest
    entropy := fun s => s
    vrfVerify := fun _ _ _ => true
    schnorrVerify := fun _ _ _ => true
    aggVerify := fun _ _ _ => true }

/-- Counterexample to C5 as stated: constructing a fork proof from two equal
headers yields `hash(header1) = hash(header2)`, not the claimed strict
inequality `hash(header1) < hash(header2)`. -/
theorem fork_new_equal_hash_counterexample :
    ¬(sampleCrypto.microHash (ForkProof.new sampleCrypto ⟨1, 0, 5⟩ 0 ⟨1, 0, 5⟩ 0 0).header1 <
      sampleCrypto.microHash (ForkProof.new sampleCrypto ⟨1, 0, 5⟩ 0 ⟨1, 0, 5⟩ 0 0).header2) := by
  decide

end Albatross

namespace Albatross

/-! ## Section 2: the staking contract
Translated from `src/primitives/account/src/account/staking_contract/validator.rs`
and `src/primitives/account/src/account/staking_contract/receipts.rs`. -/

/-- Account addresses, abstracted as naturals; `Address::from(signing_key)`
is modelled as the identity on the abstracted key. -/
abbrev Address := Nat

/-- Coin amounts (`Coin` wraps a `u64`). -/
abbrev Coin := Nat

/-- A validator record of the staking contract (`Validator`). -/
structure Validator where
  address : Address
  signing_key : Nat
  voting_key : Nat
  reward_address : Address
  signal_data : Option Nat
  total_stake : Coin
  deposit : Coin
  num_stakers : Nat
  inactive_since : Option Nat
  retired : Bool
deriving DecidableEq

/-- `Validator::is_active`. -/
def Validator.is_active (v : Validator) : Bool :=
  v.inactive_since.isNone

/-- A tombstone left behind by a deleted validator that still has stakers
(`Tombstone`). -/
structure Tombstone where
  remaining_stake : Coin
  num_remaining_stakers : Nat
deriving DecidableEq

/-- The part of the staking contract data store touched by the validator
transitions (`StakingContractStoreWrite`): the validator and tombstone
entries, keyed by address. -/
structure StakingContractStore where
  validators : Finmap (fun _ : Address => Validator)
  tombstones : Finmap (fun _ : Address => Tombstone)
deriving DecidableEq

/-- The staking contract fields read and written by the validator
transitions (`StakingContract`). -/
structure StakingContract where
  balance : Coin
  active_validators : Finmap (fun _ : Address => Coin)
  parked_set : Finset Address
  current_disabled_slots : Finmap (fun _ : Address => Finset Nat)
  previous_disabled_slots : Finmap (fun _ : Address => Finset Nat)
deriving DecidableEq

/-- The `AccountError` variants produced by the validator transitions. -/
inductive AccountError where
  | AlreadyExistentAddress (address : Address)
  | NonExistentAddress (address : Address)
  | InvalidForRecipient
  | InvalidForSender
  | InvalidSignature
  | InvalidCoinValue
deriving DecidableEq

/-- Outcome of a staking-contract transition: a value, a typed
`AccountError`, or a Rust panic (`expect` / `assert_eq!`), kept distinct
from ordinary errors as `crash`. -/
inductive TxResult (α : Type) where
  | ok (value : α)
  | err (error : AccountError)
  | crash
deriving DecidableEq

/-- `UpdateValidatorReceipt`. -/
structure UpdateValidatorReceipt where
  old_signing_key : Nat
  old_voting_key : Nat
  old_reward_address : Address
  old_signal_data : Option Nat
deriving DecidableEq

/-- `UnparkValidatorReceipt`. -/
structure UnparkValidatorReceipt where
  current_disabled_slots : Option (Finset Nat)
  previous_disabled_slots : Option (Finset Nat)
deriving DecidableEq

/-- `DeactivateValidatorReceipt`. -/
structure DeactivateValidatorReceipt where
  was_parked : Bool
deriving DecidableEq

/-- `ReactivateValidatorReceipt`. -/
structure ReactivateValidatorReceipt where
  was_inactive_since : Nat
deriving DecidableEq

/-- `RetireValidatorReceipt`. -/
structure RetireValidatorReceipt where
  was_active : Bool
  was_parked : Bool
deriving DecidableEq

/-- `DeleteValidatorReceipt`. -/
structure DeleteValidatorReceipt where
  signing_key : Nat
  voting_key : Nat
  reward_address : Address
  signal_data : Option Nat
  inactive_since : Nat
deriving DecidableEq

/-- `StakingContract::create_validator`. -/
def StakingContract.create_validator (c : StakingContract) (s : StakingContractStore)
    (validator_address : Address) (signing_key voting_key : Nat) (reward_address : Address)
    (signal_data : Option Nat) (deposit : Coin) :
    TxResult (StakingContract × StakingContractStore) :=
  match s.validators.lookup validator_address with
  | some _ => .err (.AlreadyExistentAddress validator_address)
  | none =>
    let validator0 : Validator :=
      { address := validator_address, signing_key := signing_key, voting_key := voting_key,
        reward_address := reward_address, signal_data := signal_data, total_stake := deposit,
        deposit := deposit, num_stakers := 0, inactive_since := none, retired := false }
    let step : Validator × StakingContractStore :=
      match s.tombstones.lookup validator_address with
      | some tombstone =>
        ({ validator0 with
            total_stake := validator0.total_stake + tombstone.remaining_stake,
            num_stakers := validator0.num_stakers + tombstone.num_remaining_stakers },
          { s with tombstones := s.tombstones.erase validator_address })
      | none => (validator0, s)
    .ok ({ c with
            balance := c.balance + deposit,
            active_validators :=
              c.active_validators.insert validator_address step.1.total_stake },
      { step.2 with validators := step.2.validators.insert validator_address step.1 })

/-- `StakingContract::revert_create_validator`; the `assert_eq!` on the
deposit is modelled by `crash`. -/
def StakingContract.revert_create_validator (c : StakingContract) (s : StakingContractStore)
    (validator_address : Address) (deposit : Coin) :
    TxResult (StakingContract × StakingContractStore) :=
  match s.validators.lookup validator_address with
  | none => .err (.NonExistentAddress validator_address)
  | some validator =>
    if validator.deposit != deposit then .crash
    else
      .ok ({ c with
              balance := c.balance - deposit,
              active_validators := c.active_validators.erase validator_address },
        { s with validators := s.validators.erase validator_address })

/-- `StakingContract::update_validator`. -/
def StakingContract.update_validator (c : StakingContract) (s : StakingContractStore)
    (validator_address : Address) (new_signing_key new_voting_key : Option Nat)
    (new_reward_address : Option Address) (new_signal_data : Option (Option Nat)) :
    TxResult (UpdateValidatorReceipt × StakingContract × StakingContractStore) :=
  match s.validators.lookup validator_address with
  | none => .err (.NonExistentAddress validator_address)
  | some validator =>
    let receipt : UpdateValidatorReceipt :=
      { old_signing_key := validator.signing_key, old_voting_key := validator.voting_key,
        old_reward_address := validator.reward_address,
        old_signal_data := validator.signal_data }
    let validator1 :=
      { validator with
          signing_key := new_signing_key.getD validator.signing_key,
          voting_key := new_voting_key.getD validator.voting_key,
          reward_address := new_reward_address.getD validator.reward_address,
          signal_data := new_signal_data.getD validator.signal_data }
    .ok (receipt, c,
      { s with validators := s.validators.insert validator_address validator1 })

/-- `StakingContract::revert_update_validator`. -/
def StakingContract.revert_update_validator (c : StakingContract) (s : StakingContractStore)
    (validator_address : Address) (receipt : UpdateValidatorReceipt) :
    TxResult (StakingContract × StakingContractStore) :=
  match s.validators.lookup validator_address with
  | none => .err (.NonExistentAddress validator_address)
  | some validator =>
    let validator1 :=
      { validator with
          signing_key := receipt.old_signing_key,
          voting_key := receipt.old_voting_key,
          reward_address := receipt.old_reward_address,
          signal_data := receipt.old_signal_data }
    .ok (c, { s with validators := s.validators.insert validator_address validator1 })

/-- `StakingContract::unpark_validator`. -/
def StakingContract.unpark_validator (c : StakingContract) (s : StakingContractStore)
    (validator_address signer : Address) :
    TxResult (UnparkValidatorReceipt × StakingContract × StakingContractStore) :=
  match s.validators.lookup validator_address with
  | none => .err (.NonExistentAddress validator_address)
  | some validator =>
    if validator_address ∉ c.parked_set then .err .InvalidForRecipient
    else if signer != validator.signing_key then .err .InvalidSignature
    else
      .ok ({ current_disabled_slots := c.current_disabled_slots.lookup validator_address,
             previous_disabled_slots := c.previous_disabled_slots.lookup validator_address },
        { c with
          parked_set := c.parked_set.erase validator_address,
          current_disabled_slots := c.current_disabled_slots.erase validator_address,
          previous_disabled_slots := c.previous_disabled_slots.erase validator_address },
        s)

/-- `StakingContract::revert_unpark_validator`. -/
def StakingContract.revert_unpark_validator (c : StakingContract) (s : StakingContractStore)
    (validator_address : Address) (receipt : UnparkValidatorReceipt) :
    TxResult (StakingContract × StakingContractStore) :=
  let cur := match receipt.current_disabled_slots with
    | some slots => c.current_disabled_slots.insert validator_address slots
    | none => c.current_disabled_slots
  let prev := match receipt.previous_disabled_slots with
    | some slots => c.previous_disabled_slots.insert validator_address slots
    | none => c.previous_disabled_slots
  .ok ({ c with
          parked_set := insert validator_address c.parked_set,
          current_disabled_slots := cur,
          previous_disabled_slots := prev }, s)

/-- `StakingContract::deactivate_validator`; the `expect` on the removal
from `active_validators` is modelled by `crash`. -/
def StakingContract.deactivate_validator (c : StakingContract) (s : StakingContractStore)
    (validator_address signer : Address) (block_number : Nat) :
    TxResult (DeactivateValidatorReceipt × StakingContract × StakingContractStore) :=
  match s.validators.lookup validator_address with
  | none => .err (.NonExistentAddress validator_address)
  | some validator =>
    if !validator.is_active then .err .InvalidForRecipient
    else if signer != validator.signing_key then .err .InvalidSignature
    else
      match c.active_validators.lookup validator_address with
      | none => .crash
      | some _ =>
        .ok ({ was_parked := decide (validator_address ∈ c.parked_set) },
          { c with
            active_validators := c.active_validators.erase validator_address,
            parked_set := c.parked_set.erase validator_address },
          { s with
            validators := s.validators.insert validator_address
              { validator with inactive_since := some block_number } })

/-- `StakingContract::revert_deactivate_validator`. -/
def StakingContract.revert_deactivate_validator (c : StakingContract) (s : StakingContractStore)
    (validator_address : Address) (receipt : DeactivateValidatorReceipt) :
    TxResult (StakingContract × StakingContractStore) :=
  match s.validators.lookup validator_address with
  | none => .err (.NonExistentAddress validator_address)
  | some validator =>
    let validator1 := { validator with inactive_since := none }
    .ok ({ c with
            active_validators :=
              c.active_validators.insert validator_address validator1.total_stake,
            parked_set := if receipt.was_parked
              then insert validator_address c.parked_set else c.parked_set },
      { s with validators := s.validators.insert validator_address validator1 })

/-- `StakingContract::reactivate_validator`; the `take().expect` on
`inactive_since` is modelled by `crash`. -/
def StakingContract.reactivate_validator (c : StakingContract) (s : StakingContractStore)
    (validator_address signer : Address) :
    TxResult (ReactivateValidatorReceipt × StakingContract × StakingContractStore) :=
  match s.validators.lookup validator_address with
  | none => .err (.NonExistentAddress validator_address)
  | some validator =>
    if validator.is_active then .err .InvalidForRecipient
    else if validator.retired then .err .InvalidForRecipient
    else if signer != validator.signing_key then .err .InvalidSignature
    else
      match validator.inactive_since with
      | none => .crash
      | some was_inactive_since =>
        .ok ({ was_inactive_since := was_inactive_since },
          { c with active_validators :=
              c.active_validators.insert validator_address validator.total_stake },
          { s with
            validators := s.validators.insert validator_address
              { validator with inactive_since := none } })

/-- `StakingContract::revert_reactivate_validator`; the `expect` on the
removal from `active_validators` is modelled by `crash`. -/
def StakingContract.revert_reactivate_validator (c : StakingContract) (s : StakingContractStore)
    (validator_address : Address) (receipt : ReactivateValidatorReceipt) :
    TxResult (StakingContract × StakingContractStore) :=
  match s.validators.lookup validator_address with
  | none => .err (.NonExistentAddress validator_address)
  | some validator =>
    match c.active_validators.lookup validator_address with
    | none => .crash
    | some _ =>
      .ok ({ c with active_validators := c.active_validators.erase validator_address },
        { s with
          validators := s.validators.insert validator_address
            { validator with inactive_since := some receipt.was_inactive_since } })

/-- `StakingContract::retire_validator`; the `expect` on the removal from
`active_validators` is modelled by `crash`. -/
def StakingContract.retire_validator (c : StakingContract) (s : StakingContractStore)
    (validator_address : Address) (block_number : Nat) :
    TxResult (RetireValidatorReceipt × StakingContract × StakingContractStore) :=
  match s.validators.lookup validator_address with
  | none => .err (.NonExistentAddress validator_address)
  | some validator =>
    if validator.retired then .err .InvalidForRecipient
    else
      let was_parked := decide (validator_address ∈ c.parked_set)
      if validator.is_active then
        match c.active_validators.lookup validator_address with
        | none => .crash
        | some _ =>
          .ok ({ was_active := true, was_parked := was_parked },
            { c with
              parked_set := c.parked_set.erase validator_address,
              active_validators := c.active_validators.erase validator_address },
            { s with
              validators := s.validators.insert validator_address
                { validator with retired := true, inactive_since := some block_number } })
      else
        .ok ({ was_active := false, was_parked := was_parked },
          { c with parked_set := c.parked_set.erase validator_address },
          { s with
            validators := s.validators.insert validator_address
              { validator with retired := true } })

/-- `StakingContract::revert_retire_validator`. -/
def StakingContract.revert_retire_validator (c : StakingContract) (s : StakingContractStore)
    (validator_address : Address) (receipt : RetireValidatorReceipt) :
    TxResult (StakingContract × StakingContractStore) :=
  match s.validators.lookup validator_address with
  | none => .err (.NonExistentAddress validator_address)
  | some validator =>
    let validator1 := if receipt.was_active
      then { validator with retired := false, inactive_since := none }
      else { validator with retired := false }
    let c1 := if receipt.was_active
      then { c with active_validators :=
              c.active_validators.insert validator_address validator1.total_stake }
      else c
    let c2 := if receipt.was_parked
      then { c1 with parked_set := insert validator_address c1.parked_set }
      else c1
    .ok (c2, { s with validators := s.validators.insert validator_address validator1 })

/-- `StakingContract::can_delete_validator`.
`Policy::election_block_after` and `Policy::blocks_per_batch` are not among
the source files; they enter as the parameters `ebAfter` and `bpb`.  The
`expect` on `inactive_since` is modelled by `crash`. -/
def StakingContract.can_delete_validator (ebAfter : Nat → Nat) (bpb : Nat)
    (validator : Validator) (block_number : Nat) : TxResult Unit :=
  if !validator.retired then .err .InvalidForSender
  else
    match validator.inactive_since with
    | none => .crash
    | some inactive_since =>
      if block_number ≤ ebAfter inactive_since + bpb then .err .InvalidForSender
      else .ok ()

/-- `StakingContract::delete_validator`. -/
def StakingContract.delete_validator (ebAfter : Nat → Nat) (bpb : Nat)
    (c : StakingContract) (s : StakingContractStore) (validator_address : Address)
    (block_number : Nat) (transaction_total_value : Coin) :
    TxResult (DeleteValidatorReceipt × StakingContract × StakingContractStore) :=
  match s.validators.lookup validator_address with
  | none => .err (.NonExistentAddress validator_address)
  | some validator =>
    match StakingContract.can_delete_validator ebAfter bpb validator block_number with
    | .crash => .crash
    | .err e => .err e
    | .ok () =>
      if transaction_total_value != validator.deposit then .err .InvalidCoinValue
      else
        let s1 := if validator.num_stakers > 0
          then { s with
                  tombstones := s.tombstones.insert validator_address
                    ⟨validator.total_stake - validator.deposit, validator.num_stakers⟩ }
          else s
        match validator.inactive_since with
        | none => .crash
        | some t =>
          .ok ({ signing_key := validator.signing_key, voting_key := validator.voting_key,
                 reward_address := validator.reward_address,
                 signal_data := validator.signal_data, inactive_since := t },
            { c with balance := c.balance - validator.deposit },
            { s1 with validators := s1.validators.erase validator_address })

/-- `StakingContract::revert_delete_validator`. -/
def StakingContract.revert_delete_validator (c : StakingContract) (s : StakingContractStore)
    (validator_address : Address) (transaction_total_value : Coin)
    (receipt : DeleteValidatorReceipt) :
    TxResult (StakingContract × StakingContractStore) :=
  let validator0 : Validator :=
    { address := validator_address, signing_key := receipt.signing_key,
      voting_key := receipt.voting_key, reward_address := receipt.reward_address,
      signal_data := receipt.signal_data, total_stake := transaction_total_value,
      deposit := transaction_total_value, num_stakers := 0,
      inactive_since := some receipt.inactive_since, retired := true }
  let step : Validator × StakingContractStore :=
    match s.tombstones.lookup validator_address with
    | some tombstone =>
      ({ validator0 with
          total_stake := validator0.total_stake + tombstone.remaining_stake,
          num_stakers := validator0.num_stakers + tombstone.num_remaining_stakers },
        { s with tombstones := s.tombstones.erase validator_address })
    | none => (validator0, s)
  .ok ({ c with balance := c.balance + transaction_total_value },
    { step.2 with validators := step.2.validators.insert validator_address step.1 })

end Albatross

namespace Albatross

/-- Inserting the value already stored at a key leaves a finite map
unchanged. -/
theorem fm_insert_eq_self {β : Type} {m : Finmap (fun _ : Address => β)} {a : Address} {b : β}
    (h : m.lookup a = some b) : m.insert a b = m := by
  apply Finmap.ext_lookup
  intro x
  by_cases hx : x = a
  · subst hx
    rw [Finmap.lookup_insert, h]
  · rw [Finmap.lookup_insert_of_ne _ hx]

/-- Erasing a key and re-inserting its stored value restores the map. -/
theorem fm_insert_erase {β : Type} {m : Finmap (fun _ : Address => β)} {a : Address} {b : β}
    (h : m.lookup a = some b) : (m.erase a).insert a b = m := by
  apply Finmap.ext_lookup
  intro x
  by_cases hx : x = a
  · subst hx
    rw [Finmap.lookup_insert, h]
  · rw [Finmap.lookup_insert_of_ne _ hx, Finmap.lookup_erase_ne hx]

/-- Erasing a freshly inserted key restores a map that did not contain it. -/
theorem fm_erase_insert {β : Type} {m : Finmap (fun _ : Address => β)} {a : Address} {b : β}
    (h : m.lookup a = none) : (m.insert a b).erase a = m := by
  apply Finmap.ext_lookup
  intro x
  by_cases hx : x = a
  · subst hx
    rw [Finmap.lookup_erase, h]
  · rw [Finmap.lookup_erase_ne hx, Finmap.lookup_insert_of_ne _ hx]

/-- Erasing an absent key leaves a finite map unchanged. -/
theorem fm_erase_eq_self {β : Type} {m : Finmap (fun _ : Address => β)} {a : Address}
    (h : m.lookup a = none) : m.erase a = m := by
  apply Finmap.ext_lookup
  intro x
  by_cases hx : x = a
  · subst hx
    rw [Finmap.lookup_erase, h]
  · rw [Finmap.lookup_erase_ne hx]

/-- Reverting an update restores the exact pre-update state. -/
theorem update_validator_roundtrip (c : StakingContract) (s : StakingContractStore)
    (a : Address) (nsk nvk : Option Nat) (nra : Option Address) (nsd : Option (Option Nat))
    (r : UpdateValidatorReceipt) (c1 : StakingContract) (s1 : StakingContractStore)
    (hT : StakingContract.update_validator c s a nsk nvk nra nsd = .ok (r, c1, s1)) :
    StakingContract.revert_update_validator c1 s1 a r = .ok (c, s) := by
  unfold StakingContract.update_validator at hT
  cases hv : s.validators.lookup a with
  | none => rw [hv] at hT; simp at hT
  | some v =>
    rw [hv] at hT
    simp only [TxResult.ok.injEq, Prod.mk.injEq] at hT
    obtain ⟨hr, hc, hs⟩ := hT
    subst hr hc hs
    unfold StakingContract.revert_update_validator
    simp only [Finmap.lookup_insert, Finmap.insert_insert]
    rw [fm_insert_eq_self hv]

end Albatross

namespace Albatross

/-- Clearing `inactive_since` on an already active validator record is the
identity. -/
theorem validator_clear_inactive (v : Validator) (h : v.inactive_since = none) :
    { v with inactive_since := none } = v := by
  rw [← h]

/-- Restoring a membership-dependent parked set after an erase is the
identity. -/
theorem parked_restore (p : Finset Address) (a : Address) :
    (if decide (a ∈ p) then insert a (p.erase a) else p.erase a) = p := by
  by_cases hp : a ∈ p
  · simp [hp, Finset.insert_erase]
  · simp [hp, Finset.erase_eq_of_not_mem]

/-- Reverting a deactivation restores the exact pre-deactivation state,
provided the active-validators entry carried the validator's total stake. -/
theorem deactivate_validator_roundtrip (c : StakingContract) (s : StakingContractStore)
    (a signer : Address) (bn : Nat) (r : DeactivateValidatorReceipt)
    (c1 : StakingContract) (s1 : StakingContractStore) (v : Validator)
    (hv : s.validators.lookup a = some v)
    (hact : c.active_validators.lookup a = some v.total_stake)
    (hT : StakingContract.deactivate_validator c s a signer bn = .ok (r, c1, s1)) :
    StakingContract.revert_deactivate_validator c1 s1 a r = .ok (c, s) := by
  unfold StakingContract.deactivate_validator at hT
  simp only [hv, hact] at hT
  cases hia : v.is_active with
  | false => rw [hia] at hT; simp at hT
  | true =>
    rw [hia] at hT
    cases hsig : signer != v.signing_key with
    | true => rw [hsig] at hT; simp at hT
    | false =>
      rw [hsig] at hT
      simp only [Bool.not_true, if_neg, ite_false, Bool.false_eq_true, if_false] at hT
      simp only [TxResult.ok.injEq, Prod.mk.injEq] at hT
      obtain ⟨hr, hc, hs⟩ := hT
      subst hr hc hs
      have hnone : v.inactive_since = none := by
        simpa [Validator.is_active, Option.isNone_iff_eq_none] using hia
      unfold StakingContract.revert_deactivate_validator
      simp only [Finmap.lookup_insert, Finmap.insert_insert]
      rw [validator_clear_inactive v hnone, fm_insert_eq_self hv, fm_insert_erase hact,
        parked_restore]

end Albatross

namespace Albatross

/-- Restoring a recorded `inactive_since` value on a validator that already
carries it is the identity. -/
theorem validator_restore_inactive (v : Validator) (t : Nat) (h : v.inactive_since = some t) :
    { v with inactive_since := some t } = v := by
  rw [← h]

/-- Clearing the retired flag and `inactive_since` of a validator that was
neither retired nor inactive is the identity. -/
theorem validator_unretire_activate (v : Validator) (hr : v.retired = false)
    (hn : v.inactive_since = none) :
    { v with retired := false, inactive_since := none } = v := by
  rw [← hr, ← hn]

/-- Clearing the retired flag of a non-retired validator is the identity. -/
theorem validator_unretire (v : Validator) (hr : v.retired = false) :
    { v with retired := false } = v := by
  rw [← hr]

/-- Reverting a reactivation restores the exact pre-reactivation state,
provided the validator had no active-validators entry. -/
theorem reactivate_validator_roundtrip (c : StakingContract) (s : StakingContractStore)
    (a signer : Address) (r : ReactivateValidatorReceipt)
    (c1 : StakingContract) (s1 : StakingContractStore) (v : Validator)
    (hv : s.validators.lookup a = some v)
    (hact : c.active_validators.lookup a = none)
    (hT : StakingContract.reactivate_validator c s a signer = .ok (r, c1, s1)) :
    StakingContract.revert_reactivate_validator c1 s1 a r = .ok (c, s) := by
  unfold StakingContract.reactivate_validator at hT
  simp only [hv] at hT
  cases hia : v.is_active with
  | true => rw [hia] at hT; simp at hT
  | false =>
    rw [hia, if_neg (by simp)] at hT
    cases hret : v.retired with
    | true => rw [if_pos (by simp [hret])] at hT; simp at hT
    | false =>
      rw [if_neg (by simp [hret])] at hT
      cases hsig : signer != v.signing_key with
      | true => rw [if_pos (by simp [hsig])] at hT; simp at hT
      | false =>
        rw [if_neg (by simp [hsig])] at hT
        cases hin : v.inactive_since with
        | none =>
          rw [hin] at hT
          simp at hT
        | some t =>
          rw [hin] at hT
          simp only [TxResult.ok.injEq, Prod.mk.injEq] at hT
          obtain ⟨hr2, hc, hs⟩ := hT
          subst hr2 hc hs
          unfold StakingContract.revert_reactivate_validator
          simp only [Finmap.lookup_insert, Finmap.insert_insert]
          rw [validator_restore_inactive v t hin, fm_insert_eq_self hv, fm_erase_insert hact]

/-- Reverting an unpark restores the exact pre-unpark state. -/
theorem unpark_validator_roundtrip (c : StakingContract) (s : StakingContractStore)
    (a signer : Address) (r : UnparkValidatorReceipt)
    (c1 : StakingContract) (s1 : StakingContractStore) (v : Validator)
    (hv : s.validators.lookup a = some v)
    (hT : StakingContract.unpark_validator c s a signer = .ok (r, c1, s1)) :
    StakingContract.revert_unpark_validator c1 s1 a r = .ok (c, s) := by
  unfold StakingContract.unpark_validator at hT
  simp only [hv] at hT
  by_cases hp : a ∈ c.parked_set
  · rw [if_neg (by simp [hp])] at hT
    cases hsig : signer != v.signing_key with
    | true => rw [hsig] at hT; simp at hT
    | false =>
      rw [hsig] at hT
      simp only [Bool.false_eq_true, if_false] at hT
      simp only [TxResult.ok.injEq, Prod.mk.injEq] at hT
      obtain ⟨hr2, hc, hs⟩ := hT
      subst hr2 hc hs
      unfold StakingContract.revert_unpark_validator
      cases hcur : Finmap.lookup a c.current_disabled_slots with
      | none =>
        cases hprev : Finmap.lookup a c.previous_disabled_slots with
        | none =>
          simp only [hcur, hprev, Finset.insert_erase hp,
            fm_erase_eq_self hcur, fm_erase_eq_self hprev]
        | some ps =>
          simp only [hcur, hprev, Finset.insert_erase hp,
            fm_erase_eq_self hcur, fm_insert_erase hprev]
      | some cs =>
        cases hprev : Finmap.lookup a c.previous_disabled_slots with
        | none =>
          simp only [hcur, hprev, Finset.insert_erase hp,
            fm_insert_erase hcur, fm_erase_eq_self hprev]
        | some ps =>
          simp only [hcur, hprev, Finset.insert_erase hp,
            fm_insert_erase hcur, fm_insert_erase hprev]
  · rw [if_pos hp] at hT
    simp at hT

/-- Reverting a retirement restores the exact pre-retirement state, provided
the active-validators entry of a still-active validator carried its total
stake. -/
theorem retire_validator_roundtrip (c : StakingContract) (s : StakingContractStore)
    (a : Address) (bn : Nat) (r : RetireValidatorReceipt)
    (c1 : StakingContract) (s1 : StakingContractStore) (v : Validator)
    (hv : s.validators.lookup a = some v)
    (hact : v.is_active = true → c.active_validators.lookup a = some v.total_stake)
    (hT : StakingContract.retire_validator c s a bn = .ok (r, c1, s1)) :
    StakingContract.revert_retire_validator c1 s1 a r = .ok (c, s) := by
  unfold StakingContract.retire_validator at hT
  simp only [hv] at hT
  cases hret : v.retired with
  | true => rw [hret] at hT; simp at hT
  | false =>
    rw [hret] at hT
    cases hia : v.is_active with
    | true =>
      rw [hia, hact hia] at hT
      simp only [Bool.false_eq_true, if_false, if_true, ite_true] at hT
      simp only [TxResult.ok.injEq, Prod.mk.injEq] at hT
      obtain ⟨hr2, hc, hs⟩ := hT
      subst hr2 hc hs
      have hnone : v.inactive_since = none := by
        simpa [Validator.is_active, Option.isNone_iff_eq_none] using hia
      unfold StakingContract.revert_retire_validator
      by_cases hp : a ∈ c.parked_set
      · simp only [Finmap.lookup_insert, Finmap.insert_insert, hp, decide_True, if_true,
          ite_true, validator_unretire_activate v hret hnone, fm_insert_eq_self hv,
          fm_insert_erase (hact hia), Finset.insert_erase hp]
      · simp only [Finmap.lookup_insert, Finmap.insert_insert, hp, decide_False,
          Bool.false_eq_true, if_false, ite_false, if_true, ite_true,
          validator_unretire_activate v hret hnone, fm_insert_eq_self hv,
          fm_insert_erase (hact hia), Finset.erase_eq_of_not_mem hp]
    | false =>
      rw [hia] at hT
      simp only [Bool.false_eq_true, if_false] at hT
      simp only [TxResult.ok.injEq, Prod.mk.injEq] at hT
      obtain ⟨hr2, hc, hs⟩ := hT
      subst hr2 hc hs
      unfold StakingContract.revert_retire_validator
      by_cases hp : a ∈ c.parked_set
      · simp only [Finmap.lookup_insert, Finmap.insert_insert, hp, decide_True, if_true,
          ite_true, Bool.false_eq_true, if_false, ite_false,
          validator_unretire v hret, fm_insert_eq_self hv, Finset.insert_erase hp]
      · simp only [Finmap.lookup_insert, Finmap.insert_insert, hp, decide_False,
          Bool.false_eq_true, if_false, ite_false,
          validator_unretire v hret, fm_insert_eq_self hv, Finset.erase_eq_of_not_mem hp]

end Albatross

namespace Albatross

/-- Rebuilding a validator record from its own fields is the identity. -/
theorem validator_rebuild (v : Validator) (a t : Nat)
    (haddr : v.address = a) (hin : v.inactive_since = some t) (hret : v.retired = true) :
    ({ address := a, signing_key := v.signing_key, voting_key := v.voting_key,
       reward_address := v.reward_address, signal_data := v.signal_data,
       total_stake := v.total_stake, deposit := v.deposit, num_stakers := v.num_stakers,
       inactive_since := some t, retired := true } : Validator) = v := by
  rw [← haddr, ← hin, ← hret]

/-- Reverting a deletion restores the exact pre-deletion state, provided the
store held no tombstone for the address, the validator record is keyed by
its own address, the contract balance covers the deposit, the total stake
covers the deposit, and a staker-free validator holds exactly its deposit. -/
theorem delete_validator_roundtrip (ebAfter : Nat → Nat) (bpb : Nat)
    (c : StakingContract) (s : StakingContractStore) (a : Address) (bn ttv : Nat)
    (r : DeleteValidatorReceipt) (c1 : StakingContract) (s1 : StakingContractStore)
    (v : Validator)
    (hv : s.validators.lookup a = some v)
    (haddr : v.address = a)
    (htomb : s.tombstones.lookup a = none)
    (hbal : v.deposit ≤ c.balance)
    (hts : v.deposit ≤ v.total_stake)
    (hzero : v.num_stakers = 0 → v.total_stake = v.deposit)
    (hT : StakingContract.delete_validator ebAfter bpb c s a bn ttv = .ok (r, c1, s1)) :
    StakingContract.revert_delete_validator c1 s1 a ttv r = .ok (c, s) := by
  unfold StakingContract.delete_validator StakingContract.can_delete_validator at hT
  simp only [hv] at hT
  cases hret : v.retired with
  | false => rw [if_pos (by simp [hret])] at hT; simp at hT
  | true =>
    rw [if_neg (by simp [hret])] at hT
    cases hin : v.inactive_since with
    | none => rw [hin] at hT; simp at hT
    | some t =>
      simp only [hin] at hT
      by_cases hwait : bn ≤ ebAfter t + bpb
      · rw [if_pos hwait] at hT; simp at hT
      · rw [if_neg hwait] at hT
        cases httv : ttv != v.deposit with
        | true => rw [if_pos (by simp [httv])] at hT; simp at hT
        | false =>
          rw [if_neg (by simp [httv])] at hT
          have htv : ttv = v.deposit := by simpa using httv
          by_cases hns : v.num_stakers > 0
          · rw [if_pos hns] at hT
            simp only [TxResult.ok.injEq, Prod.mk.injEq] at hT
            obtain ⟨hr2, hc, hs⟩ := hT
            subst hr2 hc hs
            unfold StakingContract.revert_delete_validator
            simp only [Finmap.lookup_insert]
            rw [htv, Nat.sub_add_cancel hbal, Nat.add_sub_cancel' hts, Nat.zero_add,
              fm_erase_insert htomb, validator_rebuild v a t haddr hin hret,
              fm_insert_erase hv]
          · rw [if_neg hns] at hT
            simp only [TxResult.ok.injEq, Prod.mk.injEq] at hT
            obtain ⟨hr2, hc, hs⟩ := hT
            subst hr2 hc hs
            have hns0 : v.num_stakers = 0 := Nat.eq_zero_of_not_pos hns
            have hts0 : v.total_stake = v.deposit := hzero hns0
            unfold StakingContract.revert_delete_validator
            simp only [htomb]
            rw [htv, Nat.sub_add_cancel hbal]
            nth_rewrite 1 [hts0.symm]
            rw [← hns0, validator_rebuild v a t haddr hin hret, fm_insert_erase hv]

end Albatross

namespace Albatross

/-- C4: for every receipt-returning staking-contract transition
(update, deactivate, reactivate, unpark, retire, delete), applying the
transition and then its revert with the returned receipt restores the
contract fields and the stored validator/tombstone entries exactly to the
pre-transition state.  The deactivate/retire cases assume the
active-validators entry carried the validator's total stake, the reactivate
case assumes the inactive validator had no active-validators entry, and the
delete case assumes a tombstone-free address, a record keyed by its own
address, a balance and total stake covering the deposit, and that a
staker-free validator holds exactly its deposit — all of which hold on
reachable contract states. -/
theorem staking_transition_revert_exact :
    (∀ c s a nsk nvk nra nsd r c1 s1,
      StakingContract.update_validator c s a nsk nvk nra nsd = .ok (r, c1, s1) →
      StakingContract.revert_update_validator c1 s1 a r = .ok (c, s)) ∧
    (∀ c s a signer bn r c1 s1 v,
      s.validators.lookup a = some v →
      c.active_validators.lookup a = some v.total_stake →
      StakingContract.deactivate_validator c s a signer bn = .ok (r, c1, s1) →
      StakingContract.revert_deactivate_validator c1 s1 a r = .ok (c, s)) ∧
    (∀ c s a signer r c1 s1 v,
      s.validators.lookup a = some v →
      c.active_validators.lookup a = none →
      StakingContract.reactivate_validator c s a signer = .ok (r, c1, s1) →
      StakingContract.revert_reactivate_validator c1 s1 a r = .ok (c, s)) ∧
    (∀ c s a signer r c1 s1 v,
      s.validators.lookup a = some v →
      StakingContract.unpark_validator c s a signer = .ok (r, c1, s1) →
      StakingContract.revert_unpark_validator c1 s1 a r = .ok (c, s)) ∧
    (∀ c s a bn r c1 s1 v,
      s.validators.lookup a = some v →
      (v.is_active = true → c.active_validators.lookup a = some v.total_stake) →
      StakingContract.retire_validator c s a bn = .ok (r, c1, s1) →
      StakingContract.revert_retire_validator c1 s1 a r = .ok (c, s)) ∧
    (∀ ebAfter bpb c s a bn ttv r c1 s1 v,
      s.validators.lookup a = some v →
      v.address = a →
      s.tombstones.lookup a = none →
      v.deposit ≤ c.balance →
      v.deposit ≤ v.total_stake →
      (v.num_stakers = 0 → v.total_stake = v.deposit) →
      StakingContract.delete_validator ebAfter bpb c s a bn ttv = .ok (r, c1, s1) →
      StakingContract.revert_delete_validator c1 s1 a ttv r = .ok (c, s)) :=
  ⟨update_validator_roundtrip, deactivate_validator_roundtrip, reactivate_validator_roundtrip,
    unpark_validator_roundtrip, retire_validator_roundtrip, delete_validator_roundtrip⟩

/-- Witness validator record: active, not retired, keyed by address 5. -/
def wv : Validator := ⟨5, 7, 8, 9, none, 100, 100, 0, none, false⟩

/-- Witness store holding only `wv`. -/
def ws : StakingContractStore := ⟨Finmap.singleton 5 wv, ∅⟩

/-- Witness contract consistent with `ws`. -/
def wc : StakingContract := ⟨100, Finmap.singleton 5 100, ∅, ∅, ∅⟩

/-- Witness inactive validator record. -/
def wv2 : Validator := ⟨5, 7, 8, 9, none, 100, 100, 0, some 20, false⟩

/-- Witness store holding only `wv2`. -/
def ws2 : StakingContractStore := ⟨Finmap.singleton 5 wv2, ∅⟩

/-- Witness contract consistent with `ws2` (no active entry). -/
def wc2 : StakingContract := ⟨100, ∅, ∅, ∅, ∅⟩

/-- Witness contract with validator 5 parked and one disabled-slot entry. -/
def wc3 : StakingContract := ⟨100, Finmap.singleton 5 100, {5}, Finmap.singleton 5 {1, 2}, ∅⟩

/-- Witness retired validator record with stakers. -/
def wv4 : Validator := ⟨5, 7, 8, 9, none, 150, 100, 2, some 10, true⟩

/-- Witness store holding only `wv4`. -/
def ws4 : StakingContractStore := ⟨Finmap.singleton 5 wv4, ∅⟩

/-- Witness contract consistent with `ws4`. -/
def wc4 : StakingContract := ⟨150, ∅, ∅, ∅, ∅⟩

/-- Witness for C4: concrete transition/revert round trips for all six
transitions. -/
theorem staking_transition_revert_exact_witness :
    (StakingContract.revert_update_validator wc
      { ws with validators := ws.validators.insert 5 { wv with signing_key := 70 } } 5
      ⟨7, 8, 9, none⟩ = .ok (wc, ws)) ∧
    (StakingContract.revert_deactivate_validator
      { wc with active_validators := wc.active_validators.erase 5,
                parked_set := wc.parked_set.erase 5 }
      { ws with validators := ws.validators.insert 5 { wv with inactive_since := some 50 } } 5
      ⟨false⟩ = .ok (wc, ws)) ∧
    (StakingContract.revert_reactivate_validator
      { wc2 with active_validators := wc2.active_validators.insert 5 100 }
      { ws2 with validators := ws2.validators.insert 5 { wv2 with inactive_since := none } } 5
      ⟨20⟩ = .ok (wc2, ws2)) ∧
    (StakingContract.revert_unpark_validator
      { wc3 with parked_set := wc3.parked_set.erase 5,
                 current_disabled_slots := wc3.current_disabled_slots.erase 5,
                 previous_disabled_slots := wc3.previous_disabled_slots.erase 5 } ws 5
      ⟨some {1, 2}, none⟩ = .ok (wc3, ws)) ∧
    (StakingContract.revert_retire_validator
      { wc with parked_set := wc.parked_set.erase 5,
                active_validators := wc.active_validators.erase 5 }
      { ws with
        validators := ws.validators.insert 5
          { wv with retired := true, inactive_since := some 30 } } 5
      ⟨true, false⟩ = .ok (wc, ws)) ∧
    (StakingContract.revert_delete_validator
      { wc4 with balance := wc4.balance - 100 }
      ⟨ws4.validators.erase 5, ws4.tombstones.insert 5 ⟨50, 2⟩⟩ 5 100
      ⟨7, 8, 9, none, 10⟩ = .ok (wc4, ws4)) :=
  ⟨staking_transition_revert_exact.1 wc ws 5 (some 70) none none none _ _ _ rfl,
    staking_transition_revert_exact.2.1 wc ws 5 7 50 _ _ _ wv rfl rfl rfl,
    staking_transition_revert_exact.2.2.1 wc2 ws2 5 7 _ _ _ wv2 rfl rfl rfl,
    staking_transition_revert_exact.2.2.2.1 wc3 ws 5 7 _ _ _ wv rfl rfl,
    staking_transition_revert_exact.2.2.2.2.1 wc ws 5 30 _ _ _ wv rfl (fun _ => rfl) rfl,
    staking_transition_revert_exact.2.2.2.2.2 (fun n => n + 10) 5 wc4 ws4 5 26 100 _ _ _ wv4
      rfl rfl rfl (by decide) (by decide) (fun h => by simp [wv4] at h) rfl⟩

end Albatross

namespace Albatross

/-- C9: `delete_validator` succeeds exactly when the validator is retired,
the block number is past `election_block_after(inactive_since)` plus one
full batch, and the transaction's total value equals the deposit; every
failure is `InvalidForSender` or `InvalidCoinValue` (the embedding is
functional, so a failing call returns no new state at all); success
decreases the balance by the deposit, removes the validator entry, and
leaves the `⟨total_stake - deposit, num_stakers⟩` tombstone exactly when at
least one staker remains. -/
theorem delete_validator_characterization (ebAfter : Nat → Nat) (bpb : Nat)
    (c : StakingContract) (s : StakingContractStore) (a : Address) (bn ttv : Nat)
    (v : Validator) (t : Nat)
    (hv : s.validators.lookup a = some v)
    (hin : v.inactive_since = some t)
    (htomb : s.tombstones.lookup a = none)
    (hbal : v.deposit ≤ c.balance) :
    ((∃ r c1 s1, StakingContract.delete_validator ebAfter bpb c s a bn ttv = .ok (r, c1, s1)) ↔
      (v.retired = true ∧ ebAfter t + bpb < bn ∧ ttv = v.deposit)) ∧
    (∀ e, StakingContract.delete_validator ebAfter bpb c s a bn ttv = .err e →
      e = .InvalidForSender ∨ e = .InvalidCoinValue) ∧
    (∀ r c1 s1, StakingContract.delete_validator ebAfter bpb c s a bn ttv = .ok (r, c1, s1) →
      c1.balance + v.deposit = c.balance ∧
      s1.validators.lookup a = none ∧
      (s1.tombstones.lookup a = some ⟨v.total_stake - v.deposit, v.num_stakers⟩ ↔
        0 < v.num_stakers)) := by
  refine ⟨⟨?_, ?_⟩, ?_, ?_⟩
  · rintro ⟨r, c1, s1, hok⟩
    unfold StakingContract.delete_validator StakingContract.can_delete_validator at hok
    simp only [hv, hin] at hok
    cases hret : v.retired with
    | false => rw [if_pos (by simp [hret])] at hok; simp at hok
    | true =>
      rw [if_neg (by simp [hret])] at hok
      by_cases hwait : bn ≤ ebAfter t + bpb
      · rw [if_pos hwait] at hok; simp at hok
      · rw [if_neg hwait] at hok
        cases httv : ttv != v.deposit with
        | true => rw [if_pos (by simp [httv])] at hok; simp at hok
        | false => exact ⟨rfl, Nat.not_le.1 hwait, by simpa using httv⟩
  · rintro ⟨hret, hlt, htv⟩
    unfold StakingContract.delete_validator StakingContract.can_delete_validator
    simp only [hv, hin]
    rw [if_neg (by simp [hret]), if_neg (Nat.not_le.2 hlt), if_neg (by simp [htv])]
    by_cases hns : v.num_stakers > 0
    · rw [if_pos hns]
      exact ⟨_, _, _, rfl⟩
    · rw [if_neg hns]
      exact ⟨_, _, _, rfl⟩
  · intro e he
    unfold StakingContract.delete_validator StakingContract.can_delete_validator at he
    simp only [hv, hin] at he
    cases hret : v.retired with
    | false =>
      rw [if_pos (by simp [hret])] at he
      simp only [TxResult.err.injEq] at he
      exact Or.inl he.symm
    | true =>
      rw [if_neg (by simp [hret])] at he
      by_cases hwait : bn ≤ ebAfter t + bpb
      · rw [if_pos hwait] at he
        simp only [TxResult.err.injEq] at he
        exact Or.inl he.symm
      · rw [if_neg hwait] at he
        cases httv : ttv != v.deposit with
        | true =>
          rw [if_pos (by simp [httv])] at he
          simp only [TxResult.err.injEq] at he
          exact Or.inr he.symm
        | false =>
          rw [if_neg (by simp [httv])] at he
          by_cases hns : v.num_stakers > 0
          · rw [if_pos hns] at he; simp at he
          · rw [if_neg hns] at he; simp at he
  · intro r c1 s1 hok
    unfold StakingContract.delete_validator StakingContract.can_delete_validator at hok
    simp only [hv, hin] at hok
    cases hret : v.retired with
    | false => rw [if_pos (by simp [hret])] at hok; simp at hok
    | true =>
      rw [if_neg (by simp [hret])] at hok
      by_cases hwait : bn ≤ ebAfter t + bpb
      · rw [if_pos hwait] at hok; simp at hok
      · rw [if_neg hwait] at hok
        cases httv : ttv != v.deposit with
        | true => rw [if_pos (by simp [httv])] at hok; simp at hok
        | false =>
          rw [if_neg (by simp [httv])] at hok
          by_cases hns : v.num_stakers > 0
          · rw [if_pos hns] at hok
            simp only [TxResult.ok.injEq, Prod.mk.injEq] at hok
            obtain ⟨hr2, hc, hs⟩ := hok
            subst hr2 hc hs
            refine ⟨Nat.sub_add_cancel hbal, Finmap.lookup_erase a _, ?_⟩
            simp only [Finmap.lookup_insert, Option.some.injEq, true_iff]
            exact hns
          · rw [if_neg hns] at hok
            simp only [TxResult.ok.injEq, Prod.mk.injEq] at hok
            obtain ⟨hr2, hc, hs⟩ := hok
            subst hr2 hc hs
            refine ⟨Nat.sub_add_cancel hbal, Finmap.lookup_erase a _, ?_⟩
            rw [htomb]
            exact ⟨fun h2 => absurd h2 (by simp), fun h2 => absurd h2 hns⟩

end Albatross

namespace Albatross

/-- Witness for C9: the success postconditions at a concrete retired
validator with two stakers. -/
theorem delete_validator_characterization_witness :
    ({ wc4 with balance := wc4.balance - 100 } : StakingContract).balance + wv4.deposit
        = wc4.balance ∧
    (⟨ws4.validators.erase 5, ws4.tombstones.insert 5 ⟨50, 2⟩⟩ :
        StakingContractStore).validators.lookup 5 = none ∧
    ((⟨ws4.validators.erase 5, ws4.tombstones.insert 5 ⟨50, 2⟩⟩ :
        StakingContractStore).tombstones.lookup 5 =
        some ⟨wv4.total_stake - wv4.deposit, wv4.num_stakers⟩ ↔ 0 < wv4.num_stakers) :=
  (delete_validator_characterization (fun n => n + 10) 5 wc4 ws4 5 26 100 wv4 10
    rfl rfl rfl (by decide)).2.2 ⟨7, 8, 9, none, 10⟩ _ _ rfl

end Albatross

namespace Albatross

/-- Consistency between an active-validators map and a validator store: an
address has an entry exactly when a validator record with
`inactive_since = none` is stored there, and the entry carries that
validator's total stake. -/
def MapsConsistent (act : Finmap (fun _ : Address => Coin))
    (vals : Finmap (fun _ : Address => Validator)) : Prop :=
  ∀ a : Address,
    (∀ v, vals.lookup a = some v → v.inactive_since = none →
      act.lookup a = some v.total_stake) ∧
    (∀ st, act.lookup a = some st →
      ∃ v, vals.lookup a = some v ∧ v.inactive_since = none)

/-- The staking-contract invariant of C10. -/
def ActiveConsistent (c : StakingContract) (s : StakingContractStore) : Prop :=
  MapsConsistent c.active_validators s.validators

/-- Erasing an address from the active map while storing an inactive record
preserves consistency. -/
theorem mapsConsistent_deactivate (act : Finmap (fun _ : Address => Coin))
    (vals : Finmap (fun _ : Address => Validator)) (a : Address) (v' : Validator)
    (h : MapsConsistent act vals) (hv' : v'.inactive_since ≠ none) :
    MapsConsistent (act.erase a) (vals.insert a v') := by
  intro a0
  by_cases ha : a0 = a
  · subst ha
    constructor
    · intro u hu hn
      rw [Finmap.lookup_insert] at hu
      simp only [Option.some.injEq] at hu
      subst hu
      exact absurd hn hv'
    · intro st hst
      rw [Finmap.lookup_erase] at hst
      exact Option.noConfusion hst
  · constructor
    · intro u hu hn
      rw [Finmap.lookup_insert_of_ne _ ha] at hu
      rw [Finmap.lookup_erase_ne ha]
      exact (h a0).1 u hu hn
    · intro st hst
      rw [Finmap.lookup_erase_ne ha] at hst
      obtain ⟨v0, hv0, h0⟩ := (h a0).2 st hst
      exact ⟨v0, by rw [Finmap.lookup_insert_of_ne _ ha]; exact hv0, h0⟩

/-- Inserting an active record together with its stake entry preserves
consistency. -/
theorem mapsConsistent_activate (act : Finmap (fun _ : Address => Coin))
    (vals : Finmap (fun _ : Address => Validator)) (a : Address) (v' : Validator)
    (h : MapsConsistent act vals) (hv' : v'.inactive_since = none) :
    MapsConsistent (act.insert a v'.total_stake) (vals.insert a v') := by
  intro a0
  by_cases ha : a0 = a
  · subst ha
    constructor
    · intro u hu hn
      rw [Finmap.lookup_insert] at hu
      simp only [Option.some.injEq] at hu
      subst hu
      rw [Finmap.lookup_insert]
    · intro st hst
      exact ⟨v', Finmap.lookup_insert vals, hv'⟩
  · constructor
    · intro u hu hn
      rw [Finmap.lookup_insert_of_ne _ ha] at hu
      rw [Finmap.lookup_insert_of_ne _ ha]
      exact (h a0).1 u hu hn
    · intro st hst
      rw [Finmap.lookup_insert_of_ne _ ha] at hst
      obtain ⟨v0, hv0, h0⟩ := (h a0).2 st hst
      exact ⟨v0, by rw [Finmap.lookup_insert_of_ne _ ha]; exact hv0, h0⟩

/-- Erasing an address from both maps preserves consistency. -/
theorem mapsConsistent_remove (act : Finmap (fun _ : Address => Coin))
    (vals : Finmap (fun _ : Address => Validator)) (a : Address)
    (h : MapsConsistent act vals) :
    MapsConsistent (act.erase a) (vals.erase a) := by
  intro a0
  by_cases ha : a0 = a
  · subst ha
    constructor
    · intro u hu hn
      rw [Finmap.lookup_erase] at hu
      exact Option.noConfusion hu
    · intro st hst
      rw [Finmap.lookup_erase] at hst
      exact Option.noConfusion hst
  · constructor
    · intro u hu hn
      rw [Finmap.lookup_erase_ne ha] at hu
      rw [Finmap.lookup_erase_ne ha]
      exact (h a0).1 u hu hn
    · intro st hst
      rw [Finmap.lookup_erase_ne ha] at hst
      obtain ⟨v0, hv0, h0⟩ := (h a0).2 st hst
      exact ⟨v0, by rw [Finmap.lookup_erase_ne ha]; exact hv0, h0⟩

/-- Replacing a stored record by one with the same activity status and total
stake preserves consistency without touching the active map. -/
theorem mapsConsistent_replace (act : Finmap (fun _ : Address => Coin))
    (vals : Finmap (fun _ : Address => Validator)) (a : Address) (v v' : Validator)
    (h : MapsConsistent act vals) (hv : vals.lookup a = some v)
    (hin : v'.inactive_since = v.inactive_since) (hts : v'.total_stake = v.total_stake) :
    MapsConsistent act (vals.insert a v') := by
  intro a0
  by_cases ha : a0 = a
  · subst ha
    constructor
    · intro u hu hn
      rw [Finmap.lookup_insert] at hu
      simp only [Option.some.injEq] at hu
      subst hu
      rw [hts]
      exact (h a0).1 v hv (by rw [← hin]; exact hn)
    · intro st hst
      obtain ⟨v0, hv0, h0⟩ := (h a0).2 st hst
      rw [hv] at hv0
      simp only [Option.some.injEq] at hv0
      subst hv0
      exact ⟨v', Finmap.lookup_insert vals, by rw [hin]; exact h0⟩
  · constructor
    · intro u hu hn
      rw [Finmap.lookup_insert_of_ne _ ha] at hu
      exact (h a0).1 u hu hn
    · intro st hst
      obtain ⟨v0, hv0, h0⟩ := (h a0).2 st hst
      exact ⟨v0, by rw [Finmap.lookup_insert_of_ne _ ha]; exact hv0, h0⟩

end Albatross

namespace Albatross

/-- Creating a validator preserves the invariant. -/
theorem create_validator_preserves (c : StakingContract) (s : StakingContractStore)
    (a : Address) (sk vk : Nat) (ra : Address) (sd : Option Nat) (dep : Coin)
    (c1 : StakingContract) (s1 : StakingContractStore)
    (h : ActiveConsistent c s)
    (hT : StakingContract.create_validator c s a sk vk ra sd dep = .ok (c1, s1)) :
    ActiveConsistent c1 s1 := by
  unfold StakingContract.create_validator at hT
  cases hv : s.validators.lookup a with
  | some v => rw [hv] at hT; simp at hT
  | none =>
    simp only [hv] at hT
    cases ht : s.tombstones.lookup a with
    | some tomb =>
      simp only [ht] at hT
      simp only [TxResult.ok.injEq, Prod.mk.injEq] at hT
      obtain ⟨hc, hs⟩ := hT
      subst hc hs
      exact mapsConsistent_activate _ _ _ _ h rfl
    | none =>
      simp only [ht] at hT
      simp only [TxResult.ok.injEq, Prod.mk.injEq] at hT
      obtain ⟨hc, hs⟩ := hT
      subst hc hs
      exact mapsConsistent_activate _ _ _ _ h rfl

/-- Reverting a creation preserves the invariant. -/
theorem revert_create_validator_preserves (c : StakingContract) (s : StakingContractStore)
    (a : Address) (dep : Coin) (c1 : StakingContract) (s1 : StakingContractStore)
    (h : ActiveConsistent c s)
    (hT : StakingContract.revert_create_validator c s a dep = .ok (c1, s1)) :
    ActiveConsistent c1 s1 := by
  unfold StakingContract.revert_create_validator at hT
  cases hv : s.validators.lookup a with
  | none => rw [hv] at hT; simp at hT
  | some v =>
    simp only [hv] at hT
    cases hdep : v.deposit != dep with
    | true => rw [hdep] at hT; simp at hT
    | false =>
      rw [hdep] at hT
      simp only [Bool.false_eq_true, if_false] at hT
      simp only [TxResult.ok.injEq, Prod.mk.injEq] at hT
      obtain ⟨hc, hs⟩ := hT
      subst hc hs
      exact mapsConsistent_remove _ _ _ h

/-- Deactivating a validator preserves the invariant. -/
theorem deactivate_validator_preserves (c : StakingContract) (s : StakingContractStore)
    (a signer : Address) (bn : Nat) (r : DeactivateValidatorReceipt)
    (c1 : StakingContract) (s1 : StakingContractStore)
    (h : ActiveConsistent c s)
    (hT : StakingContract.deactivate_validator c s a signer bn = .ok (r, c1, s1)) :
    ActiveConsistent c1 s1 := by
  unfold StakingContract.deactivate_validator at hT
  cases hv : s.validators.lookup a with
  | none => rw [hv] at hT; simp at hT
  | some v =>
    simp only [hv] at hT
    cases hia : v.is_active with
    | false => rw [hia] at hT; simp at hT
    | true =>
      rw [hia] at hT
      cases hsig : signer != v.signing_key with
      | true => rw [hsig] at hT; simp at hT
      | false =>
        rw [hsig] at hT
        simp only [Bool.not_true, Bool.false_eq_true, if_false] at hT
        cases hact : c.active_validators.lookup a with
        | none => rw [hact] at hT; simp at hT
        | some st =>
          simp only [hact] at hT
          simp only [TxResult.ok.injEq, Prod.mk.injEq] at hT
          obtain ⟨hr2, hc, hs⟩ := hT
          subst hr2 hc hs
          exact mapsConsistent_deactivate _ _ _ _ h (by simp)

/-- Reverting a deactivation preserves the invariant. -/
theorem revert_deactivate_validator_preserves (c : StakingContract)
    (s : StakingContractStore) (a : Address) (r : DeactivateValidatorReceipt)
    (c1 : StakingContract) (s1 : StakingContractStore)
    (h : ActiveConsistent c s)
    (hT : StakingContract.revert_deactivate_validator c s a r = .ok (c1, s1)) :
    ActiveConsistent c1 s1 := by
  unfold StakingContract.revert_deactivate_validator at hT
  cases hv : s.validators.lookup a with
  | none => rw [hv] at hT; simp at hT
  | some v =>
    simp only [hv] at hT
    simp only [TxResult.ok.injEq, Prod.mk.injEq] at hT
    obtain ⟨hc, hs⟩ := hT
    subst hc hs
    exact mapsConsistent_activate _ _ _ _ h rfl

/-- Reactivating a validator preserves the invariant. -/
theorem reactivate_validator_preserves (c : StakingContract) (s : StakingContractStore)
    (a signer : Address) (r : ReactivateValidatorReceipt)
    (c1 : StakingContract) (s1 : StakingContractStore)
    (h : ActiveConsistent c s)
    (hT : StakingContract.reactivate_validator c s a signer = .ok (r, c1, s1)) :
    ActiveConsistent c1 s1 := by
  unfold StakingContract.reactivate_validator at hT
  cases hv : s.validators.lookup a with
  | none => rw [hv] at hT; simp at hT
  | some v =>
    simp only [hv] at hT
    cases hia : v.is_active with
    | true => rw [hia] at hT; simp at hT
    | false =>
      rw [hia, if_neg (by simp)] at hT
      cases hret : v.retired with
      | true => rw [if_pos (by simp [hret])] at hT; simp at hT
      | false =>
        rw [if_neg (by simp [hret])] at hT
        cases hsig : signer != v.signing_key with
        | true => rw [if_pos (by simp [hsig])] at hT; simp at hT
        | false =>
          rw [if_neg (by simp [hsig])] at hT
          cases hin : v.inactive_since with
          | none => rw [hin] at hT; simp at hT
          | some t =>
            rw [hin] at hT
            simp only [TxResult.ok.injEq, Prod.mk.injEq] at hT
            obtain ⟨hr2, hc, hs⟩ := hT
            subst hr2 hc hs
            exact mapsConsistent_activate _ _ _ _ h rfl

/-- Reverting a reactivation preserves the invariant. -/
theorem revert_reactivate_validator_preserves (c : StakingContract)
    (s : StakingContractStore) (a : Address) (r : ReactivateValidatorReceipt)
    (c1 : StakingContract) (s1 : StakingContractStore)
    (h : ActiveConsistent c s)
    (hT : StakingContract.revert_reactivate_validator c s a r = .ok (c1, s1)) :
    ActiveConsistent c1 s1 := by
  unfold StakingContract.revert_reactivate_validator at hT
  cases hv : s.validators.lookup a with
  | none => rw [hv] at hT; simp at hT
  | some v =>
    simp only [hv] at hT
    cases hact : c.active_validators.lookup a with
    | none => rw [hact] at hT; simp at hT
    | some st =>
      simp only [hact] at hT
      simp only [TxResult.ok.injEq, Prod.mk.injEq] at hT
      obtain ⟨hc, hs⟩ := hT
      subst hc hs
      exact mapsConsistent_deactivate _ _ _ _ h (by simp)

/-- Retiring a validator preserves the invariant. -/
theorem retire_validator_preserves (c : StakingContract) (s : StakingContractStore)
    (a : Address) (bn : Nat) (r : RetireValidatorReceipt)
    (c1 : StakingContract) (s1 : StakingContractStore)
    (h : ActiveConsistent c s)
    (hT : StakingContract.retire_validator c s a bn = .ok (r, c1, s1)) :
    ActiveConsistent c1 s1 := by
  unfold StakingContract.retire_validator at hT
  cases hv : s.validators.lookup a with
  | none => rw [hv] at hT; simp at hT
  | some v =>
    simp only [hv] at hT
    cases hret : v.retired with
    | true => rw [hret] at hT; simp at hT
    | false =>
      rw [if_neg (by simp [hret])] at hT
      cases hia : v.is_active with
      | true =>
        rw [hia, if_pos rfl] at hT
        cases hact : c.active_validators.lookup a with
        | none => rw [hact] at hT; simp at hT
        | some st =>
          simp only [hact] at hT
          simp only [TxResult.ok.injEq, Prod.mk.injEq] at hT
          obtain ⟨hr2, hc, hs⟩ := hT
          subst hr2 hc hs
          exact mapsConsistent_deactivate _ _ _ _ h (by simp)
      | false =>
        rw [hia, if_neg (by simp)] at hT
        simp only [TxResult.ok.injEq, Prod.mk.injEq] at hT
        obtain ⟨hr2, hc, hs⟩ := hT
        subst hr2 hc hs
        exact mapsConsistent_replace _ _ _ v _ h hv rfl rfl

/-- Reverting a retirement preserves the invariant. -/
theorem revert_retire_validator_preserves (c : StakingContract)
    (s : StakingContractStore) (a : Address) (r : RetireValidatorReceipt)
    (c1 : StakingContract) (s1 : StakingContractStore)
    (h : ActiveConsistent c s)
    (hT : StakingContract.revert_retire_validator c s a r = .ok (c1, s1)) :
    ActiveConsistent c1 s1 := by
  obtain ⟨wa, wp⟩ := r
  unfold StakingContract.revert_retire_validator at hT
  cases hv : s.validators.lookup a with
  | none => rw [hv] at hT; simp at hT
  | some v =>
    simp only [hv] at hT
    cases wa with
    | true =>
      cases wp with
      | true =>
        simp only [reduceIte] at hT
        simp only [TxResult.ok.injEq, Prod.mk.injEq] at hT
        obtain ⟨hc, hs⟩ := hT
        subst hc hs
        exact mapsConsistent_activate _ _ _ _ h rfl
      | false =>
        simp only [reduceIte, Bool.false_eq_true] at hT
        simp only [TxResult.ok.injEq, Prod.mk.injEq] at hT
        obtain ⟨hc, hs⟩ := hT
        subst hc hs
        exact mapsConsistent_activate _ _ _ _ h rfl
    | false =>
      cases wp with
      | true =>
        simp only [reduceIte, Bool.false_eq_true] at hT
        simp only [TxResult.ok.injEq, Prod.mk.injEq] at hT
        obtain ⟨hc, hs⟩ := hT
        subst hc hs
        exact mapsConsistent_replace _ _ _ v _ h hv rfl rfl
      | false =>
        simp only [reduceIte, Bool.false_eq_true] at hT
        simp only [TxResult.ok.injEq, Prod.mk.injEq] at hT
        obtain ⟨hc, hs⟩ := hT
        subst hc hs
        exact mapsConsistent_replace _ _ _ v _ h hv rfl rfl

end Albatross

namespace Albatross

/-- C10: create, deactivate, reactivate and retire, together with their
reverts, preserve the invariant that an address has an `active_validators`
entry exactly when a validator record with `inactive_since = none` is
stored for it, with the entry equal to that validator's total stake. -/
theorem validator_ops_preserve_active_consistent :
    (∀ c s a sk vk ra sd dep c1 s1, ActiveConsistent c s →
      StakingContract.create_validator c s a sk vk ra sd dep = .ok (c1, s1) →
      ActiveConsistent c1 s1) ∧
    (∀ c s a dep c1 s1, ActiveConsistent c s →
      StakingContract.revert_create_validator c s a dep = .ok (c1, s1) →
      ActiveConsistent c1 s1) ∧
    (∀ c s a signer bn r c1 s1, ActiveConsistent c s →
      StakingContract.deactivate_validator c s a signer bn = .ok (r, c1, s1) →
      ActiveConsistent c1 s1) ∧
    (∀ c s a r c1 s1, ActiveConsistent c s →
      StakingContract.revert_deactivate_validator c s a r = .ok (c1, s1) →
      ActiveConsistent c1 s1) ∧
    (∀ c s a signer r c1 s1, ActiveConsistent c s →
      StakingContract.reactivate_validator c s a signer = .ok (r, c1, s1) →
      ActiveConsistent c1 s1) ∧
    (∀ c s a r c1 s1, ActiveConsistent c s →
      StakingContract.revert_reactivate_validator c s a r = .ok (c1, s1) →
      ActiveConsistent c1 s1) ∧
    (∀ c s a bn r c1 s1, ActiveConsistent c s →
      StakingContract.retire_validator c s a bn = .ok (r, c1, s1) →
      ActiveConsistent c1 s1) ∧
    (∀ c s a r c1 s1, ActiveConsistent c s →
      StakingContract.revert_retire_validator c s a r = .ok (c1, s1) →
      ActiveConsistent c1 s1) :=
  ⟨fun c s a sk vk ra sd dep c1 s1 h hT =>
      create_validator_preserves c s a sk vk ra sd dep c1 s1 h hT,
    fun c s a dep c1 s1 h hT => revert_create_validator_preserves c s a dep c1 s1 h hT,
    fun c s a signer bn r c1 s1 h hT =>
      deactivate_validator_preserves c s a signer bn r c1 s1 h hT,
    fun c s a r c1 s1 h hT => revert_deactivate_validator_preserves c s a r c1 s1 h hT,
    fun c s a signer r c1 s1 h hT =>
      reactivate_validator_preserves c s a signer r c1 s1 h hT,
    fun c s a r c1 s1 h hT => revert_reactivate_validator_preserves c s a r c1 s1 h hT,
    fun c s a bn r c1 s1 h hT => retire_validator_preserves c s a bn r c1 s1 h hT,
    fun c s a r c1 s1 h hT => revert_retire_validator_preserves c s a r c1 s1 h hT⟩

/-- The empty contract used by the C10 witness. -/
def emptyContract : StakingContract := ⟨0, ∅, ∅, ∅, ∅⟩

/-- The empty store used by the C10 witness. -/
def emptyStore : StakingContractStore := ⟨∅, ∅⟩

/-- Witness for C10: creating a validator in the (consistent) empty state
yields a consistent state. -/
theorem validator_ops_preserve_active_consistent_witness :
    ActiveConsistent
      ⟨0 + 100, (∅ : Finmap (fun _ : Address => Coin)).insert 5 100, ∅, ∅, ∅⟩
      ⟨(∅ : Finmap (fun _ : Address => Validator)).insert 5 wv, ∅⟩ :=
  validator_ops_preserve_active_consistent.1 emptyContract emptyStore 5 7 8 9 none 100
    ⟨0 + 100, (∅ : Finmap (fun _ : Address => Coin)).insert 5 100, ∅, ∅, ∅⟩
    ⟨(∅ : Finmap (fun _ : Address => Validator)).insert 5 wv, ∅⟩
    (by
      intro a
      constructor
      · intro u hu hn
        rw [show emptyStore.validators = ∅ from rfl, Finmap.lookup_empty] at hu
        exact Option.noConfusion hu
      · intro st hst
        rw [show emptyContract.active_validators = ∅ from rfl, Finmap.lookup_empty] at hst
        exact Option.noConfusion hst)
    rfl

end Albatross

namespace Albatross

/-! ## Section 3: chain selection (modelled)
The chain-selection `push` state machine is not among the source files; only
its tests (`src/blockchain/tests/rebranching.rs`) are.  The model below
follows the spec's §4.1, with the score direction fixed by those tests. -/

/-- `PushResult` as exposed by `push`. -/
inductive PushResult where
  | Extended
  | Rebranched
  | Forked
  | Ignored
deriving DecidableEq

/-- `PushError` as exposed by `push` (the variants the modelled claims
need). -/
inductive PushError where
  | Orphan
  | InvalidBlock
  | InvalidJustification
deriving DecidableEq

/-- Modelled from the spec: a block of a diverging branch as seen by chain
selection, reduced to its count of accumulated skip events (the view/round
advance that a skip block carries). -/
structure ModelBlock where
  skips : Nat
deriving DecidableEq

/-- Modelled from the spec: the accumulated skip count of a branch, summed
block by block along the path from the common ancestor. -/
def branchSkips : List ModelBlock → Nat
  | [] => 0
  | b :: rest => b.skips + branchSkips rest

/-- Modelled from the spec and the rebranching tests: the cumulative chain
score of a branch is its sequence of per-height view numbers (the
accumulated skip events each block carries), taken from the fork point and
ordered lexicographically.  The spec calls the score an inverse function of
the accumulated skip count, but the repository's own tests pin down a
different rule: at the first height where two branches differ, the block
with the higher view number — a skip block, whose aggregate justification
supersedes the ordinary micro block of that height — wins, regardless of
the branches' lengths or total skip counts (case 2 of
`it_can_rebranch_skip_block` rebranches onto a shorter branch with an equal
skip total, and `it_can_rebranch_forks` leaves equal-view side branches as
mere forks). -/
def chainScore (branch : List ModelBlock) : List Nat :=
  branch.map (fun b => b.skips)

/-- Computable lexicographic comparison of two view-number sequences (the
computable form of `List.Lex` on naturals). -/
def lexCompare : List Nat → List Nat → Ordering
  | [], [] => .eq
  | [], _ :: _ => .lt
  | _ :: _, [] => .gt
  | a :: u, b :: v =>
    if a < b then .lt else if b < a then .gt else lexCompare u v

/-- Modelled from the spec (§4.1 step 4) with the score rule of the tests:
pushing a candidate that extends a known side branch rebranches exactly
when the candidate branch's score is lexicographically greater than the
main branch's, forks on a tie (keeping the established main chain), and is
ignored when the candidate scores strictly lower. -/
def pushSideBranch (main cand : List ModelBlock) : PushResult :=
  match lexCompare (chainScore main) (chainScore cand) with
  | .lt => .Rebranched
  | .eq => .Forked
  | .gt => .Ignored

/-- The comparison is reflexively `eq` exactly on equal sequences. -/
theorem lexCompare_eq_iff : ∀ u v : List Nat, lexCompare u v = .eq ↔ u = v := by
  intro u
  induction u with
  | nil =>
    intro v
    cases v with
    | nil => exact iff_of_true rfl rfl
    | cons b v =>
      exact iff_of_false (fun hx => Ordering.noConfusion hx) (fun hx => List.noConfusion hx)
  | cons a u ih =>
    intro v
    cases v with
    | nil =>
      exact iff_of_false (fun hx => Ordering.noConfusion hx) (fun hx => List.noConfusion hx)
    | cons b v =>
      rcases Nat.lt_trichotomy a b with h | h | h
      · have hc : lexCompare (a :: u) (b :: v) = .lt := by
          simp only [lexCompare]
          rw [if_pos h]
        rw [hc]
        refine iff_of_false (fun hx => Ordering.noConfusion hx) ?_
        intro he
        injection he with h1 h2
        exact absurd h1 (Nat.ne_of_lt h)
      · subst h
        have hc : lexCompare (a :: u) (a :: v) = lexCompare u v := by
          simp only [lexCompare]
          rw [if_neg (Nat.lt_irrefl a), if_neg (Nat.lt_irrefl a)]
        rw [hc, ih v]
        constructor
        · intro he
          rw [he]
        · intro he
          injection he with h1 h2
      · have hc : lexCompare (a :: u) (b :: v) = .gt := by
          simp only [lexCompare]
          rw [if_neg (Nat.lt_asymm h), if_pos h]
        rw [hc]
        refine iff_of_false (fun hx => Ordering.noConfusion hx) ?_
        intro he
        injection he with h1 h2
        exact absurd h1 (Nat.ne_of_lt h).symm

/-- The comparison returns `lt` exactly on lexicographically smaller
sequences, in the sense of the inductive relation `List.Lex`. -/
theorem lexCompare_lt_iff : ∀ u v : List Nat, lexCompare u v = .lt ↔ List.Lex (· < ·) u v := by
  intro u
  induction u with
  | nil =>
    intro v
    cases v with
    | nil => exact iff_of_false (fun hx => Ordering.noConfusion hx) (List.Lex.not_nil_right _ _)
    | cons b v => exact iff_of_true rfl List.Lex.nil
  | cons a u ih =>
    intro v
    cases v with
    | nil => exact iff_of_false (fun hx => Ordering.noConfusion hx) (List.Lex.not_nil_right _ _)
    | cons b v =>
      rcases Nat.lt_trichotomy a b with h | h | h
      · have hc : lexCompare (a :: u) (b :: v) = .lt := by
          simp only [lexCompare]
          rw [if_pos h]
        rw [hc]
        exact iff_of_true rfl (List.Lex.rel h)
      · subst h
        have hc : lexCompare (a :: u) (a :: v) = lexCompare u v := by
          simp only [lexCompare]
          rw [if_neg (Nat.lt_irrefl a), if_neg (Nat.lt_irrefl a)]
        rw [hc, ih v]
        exact List.Lex.cons_iff.symm
      · have hc : lexCompare (a :: u) (b :: v) = .gt := by
          simp only [lexCompare]
          rw [if_neg (Nat.lt_asymm h), if_pos h]
        rw [hc]
        refine iff_of_false (fun hx => Ordering.noConfusion hx) ?_
        intro hlex
        cases hlex with
        | cons h2 => exact absurd h (Nat.lt_irrefl a)
        | rel h2 => exact absurd h2 (Nat.lt_asymm h)

/-- The comparison returns `gt` exactly on lexicographically greater
sequences. -/
theorem lexCompare_gt_iff : ∀ u v : List Nat, lexCompare u v = .gt ↔ List.Lex (· < ·) v u := by
  intro u
  induction u with
  | nil =>
    intro v
    cases v with
    | nil => exact iff_of_false (fun hx => Ordering.noConfusion hx) (List.Lex.not_nil_right _ _)
    | cons b v =>
      exact iff_of_false (fun hx => Ordering.noConfusion hx) (List.Lex.not_nil_right _ _)
  | cons a u ih =>
    intro v
    cases v with
    | nil => exact iff_of_true rfl List.Lex.nil
    | cons b v =>
      rcases Nat.lt_trichotomy a b with h | h | h
      · have hc : lexCompare (a :: u) (b :: v) = .lt := by
          simp only [lexCompare]
          rw [if_pos h]
        rw [hc]
        refine iff_of_false (fun hx => Ordering.noConfusion hx) ?_
        intro hlex
        cases hlex with
        | cons h2 => exact absurd h (Nat.lt_irrefl a)
        | rel h2 => exact absurd h2 (Nat.lt_asymm h)
      · subst h
        have hc : lexCompare (a :: u) (a :: v) = lexCompare u v := by
          simp only [lexCompare]
          rw [if_neg (Nat.lt_irrefl a), if_neg (Nat.lt_irrefl a)]
        rw [hc, ih v]
        exact List.Lex.cons_iff.symm
      · have hc : lexCompare (a :: u) (b :: v) = .gt := by
          simp only [lexCompare]
          rw [if_neg (Nat.lt_asymm h), if_pos h]
        rw [hc]
        exact iff_of_true rfl (List.Lex.rel h)

/-- Counterexample to C1 as stated: pushing a one-skip-block candidate
branch against a skip-free main branch rebranches, exactly as the test
`it_can_rebranch_skip_block` asserts, although the candidate has MORE, not
fewer, accumulated skip blocks — the claim predicts `Ignored` here. -/
theorem push_fewer_skips_counterexample :
    pushSideBranch [⟨0⟩] [⟨1⟩] = .Rebranched ∧
    ¬branchSkips [⟨1⟩] < branchSkips [⟨0⟩] := by
  decide

/-- C1 (amended): a side-branch push returns `Rebranched` exactly when the
candidate branch's score — its sequence of per-height view numbers from the
fork point — is lexicographically greater than the main branch's, `Forked`
exactly on a tie, and `Ignored` whenever the candidate's score is strictly
lower; the concrete equations replay every side-branch push of the cited
tests `it_can_rebranch_skip_block` (both cases, including the
equal-skip-total rebranch of case 2) and `it_can_rebranch_forks`. -/
theorem chain_selection_score :
    (∀ main cand : List ModelBlock,
      (pushSideBranch main cand = .Rebranched ↔
        List.Lex (· < ·) (chainScore main) (chainScore cand)) ∧
      (pushSideBranch main cand = .Forked ↔ chainScore main = chainScore cand) ∧
      (List.Lex (· < ·) (chainScore cand) (chainScore main) →
        pushSideBranch main cand = .Ignored)) ∧
    (pushSideBranch [⟨0⟩] [⟨1⟩] = .Rebranched ∧
      pushSideBranch [⟨1⟩] [⟨0⟩] = .Ignored ∧
      pushSideBranch [⟨1⟩] [⟨0⟩, ⟨0⟩] = .Ignored) ∧
    (pushSideBranch [⟨0⟩, ⟨1⟩] [⟨1⟩] = .Rebranched ∧
      pushSideBranch [⟨1⟩] [⟨0⟩, ⟨1⟩] = .Ignored) ∧
    (pushSideBranch [⟨0⟩] [⟨0⟩] = .Forked ∧
      pushSideBranch [⟨0⟩, ⟨0⟩] [⟨0⟩, ⟨0⟩] = .Forked ∧
      pushSideBranch [⟨0⟩, ⟨0⟩, ⟨0⟩] [⟨0⟩, ⟨0⟩, ⟨1⟩] = .Rebranched ∧
      pushSideBranch [⟨0⟩, ⟨0⟩, ⟨1⟩] [⟨0⟩, ⟨0⟩, ⟨0⟩] = .Ignored ∧
      pushSideBranch [⟨0⟩, ⟨0⟩, ⟨1⟩, ⟨1⟩] [⟨0⟩, ⟨0⟩, ⟨0⟩, ⟨0⟩] = .Ignored) := by
  refine ⟨?_, by decide, by decide, by decide⟩
  intro main cand
  unfold pushSideBranch
  cases h : lexCompare (chainScore main) (chainScore cand) with
  | lt =>
    refine ⟨iff_of_true rfl ((lexCompare_lt_iff _ _).1 h), iff_of_false (by decide) ?_, ?_⟩
    · intro he
      rw [← lexCompare_eq_iff, h] at he
      exact Ordering.noConfusion he
    · intro hvu
      exact absurd ((lexCompare_lt_iff _ _).1 h) (asymm hvu)
  | eq =>
    have huv := (lexCompare_eq_iff _ _).1 h
    refine ⟨iff_of_false (by decide) ?_, iff_of_true rfl huv, ?_⟩
    · intro hl
      rw [huv] at hl
      exact asymm hl hl
    · intro hvu
      rw [huv] at hvu
      exact absurd hvu (fun hl => asymm hl hl)
  | gt =>
    refine ⟨iff_of_false (by decide) ?_, iff_of_false (by decide) ?_, fun _ => rfl⟩
    · intro hl
      exact absurd ((lexCompare_gt_iff _ _).1 h) (asymm hl)
    · intro he
      rw [← lexCompare_eq_iff, h] at he
      exact Ordering.noConfusion he

/-- Witness for C1: the equal-skip-total push of
`it_can_rebranch_skip_block` case 2 — the shorter candidate whose first
divergent block is a skip block rebranches the longer main branch. -/
theorem chain_selection_score_witness :
    pushSideBranch [⟨1⟩] [⟨0⟩, ⟨1⟩] = PushResult.Ignored ∧
    pushSideBranch [⟨0⟩, ⟨1⟩] [⟨1⟩] = PushResult.Rebranched :=
  ⟨(chain_selection_score.1 [⟨1⟩] [⟨0⟩, ⟨1⟩]).2.2 (by decide),
    (chain_selection_score.1 [⟨0⟩, ⟨1⟩] [⟨1⟩]).1.2 (by decide)⟩

/-- C2: in the two-producer scenario — one producer extends the common
ancestor by a skip block, the other by a regular block — pushing the
skip-block branch into the skip-free producer rebranches, and pushing the
skip-free branch into the producer holding the skip block is ignored
(`it_can_rebranch_skip_block`). -/
theorem two_producer_skip_scenario :
    pushSideBranch [⟨0⟩] [⟨1⟩] = .Rebranched ∧
    pushSideBranch [⟨1⟩] [⟨0⟩] = .Ignored := by
  decide

/-- Modelled from the spec: the Tendermint justification of a macro block as
consumed by the 2/3-of-voting-power threshold check (`TendermintProof` is
not among the source files, only its caller
`MacroBlock::verify_validators`): the aggregated voting power of its
signers. -/
structure TendermintProofM where
  signedPower : Nat
deriving DecidableEq

/-- Modelled from the spec: the aggregate-signature threshold — the proof
must carry at least two thirds of the total voting power. -/
def tendermintThreshold (totalPower : Nat) (proof : TendermintProofM) : Bool :=
  decide (2 * totalPower ≤ 3 * proof.signedPower)

/-- A macro block as read by `verify_validators`: its optional
justification. -/
structure MacroBlockM where
  justification : Option TendermintProofM
deriving DecidableEq

/-- `BlockError` as returned by `MacroBlock::verify_validators`. -/
inductive BlockError where
  | InvalidJustification
deriving DecidableEq

/-- `MacroBlock::verify_validators`, translated from
`src/primitives/block/src/macro_block.rs`, with the Tendermint proof check
modelled from the spec (a block without justification cannot pass). -/
def MacroBlockM.verify_validators (totalPower : Nat) (b : MacroBlockM) :
    Except BlockError Unit :=
  if !(match b.justification with
      | some proof => tendermintThreshold totalPower proof
      | none => false) then
    .error .InvalidJustification
  else
    .ok ()

/-- Modelled from the spec (§4.1 step 6): pushing a macro block that extends
a known side branch.  A macro block failing the threshold check is rejected
with `PushError::InvalidJustification` and not stored even as a side branch
(second component `false`); a justified macro block is adopted — rebranched
and stored — regardless of the branches' scores, since macro finality is
absolute. -/
def pushMacroSideBranch (totalPower : Nat) (main cand : List ModelBlock)
    (b : MacroBlockM) : Except PushError PushResult × Bool :=
  match MacroBlockM.verify_validators totalPower b with
  | .error _ => (.error .InvalidJustification, false)
  | .ok () => (.ok .Rebranched, true)

/-- C8: a macro block failing the 2/3 threshold check is rejected with
`InvalidJustification` and not stored even as a side branch; a justified
macro block on a known side branch is never silently ignored — it
rebranches and is stored even when the candidate branch's cumulative score
is at most the main branch's. -/
theorem macro_block_push_contract (totalPower : Nat) (main cand : List ModelBlock)
    (b : MacroBlockM) :
    (MacroBlockM.verify_validators totalPower b = .error .InvalidJustification →
      pushMacroSideBranch totalPower main cand b = (.error .InvalidJustification, false)) ∧
    (MacroBlockM.verify_validators totalPower b = .ok () →
      pushMacroSideBranch totalPower main cand b = (.ok .Rebranched, true)) ∧
    (MacroBlockM.verify_validators totalPower b = .ok () →
      chainScore cand ≤ chainScore main →
      pushMacroSideBranch totalPower main cand b = (.ok .Rebranched, true)) := by
  unfold pushMacroSideBranch
  refine ⟨fun hverify => ?_, fun hverify => ?_, fun hverify _ => ?_⟩ <;> rw [hverify]

/-- Witness for C8: an unjustified macro block is rejected and not stored; a
justified one rebranches onto a strictly inferior branch. -/
theorem macro_block_push_contract_witness :
    pushMacroSideBranch 3 [⟨5⟩] [⟨0⟩] ⟨none⟩ = (.error .InvalidJustification, false) ∧
    pushMacroSideBranch 3 [⟨5⟩] [⟨0⟩] ⟨some ⟨2⟩⟩ = (.ok .Rebranched, true) :=
  ⟨(macro_block_push_contract 3 [⟨5⟩] [⟨0⟩] ⟨none⟩).1 rfl,
    (macro_block_push_contract 3 [⟨5⟩] [⟨0⟩] ⟨some ⟨2⟩⟩).2.2 rfl (by decide)⟩

end Albatross

namespace Albatross

/-! ## Section 4: inherent generation (modelled)
`finalize_previous_batch` and `create_punishment_inherents` are not among
the source files; only their tests (`src/blockchain/tests/inherents.rs`)
are.  The models below follow the spec's §4.2 and those tests. -/

/-- The `Inherent` variants produced by batch finalization and punishment
generation; jailed-validator and penalized-slot payloads are inlined. -/
inductive Inherent where
  | Reward (target : Address) (value : Coin)
  | Penalize (slot : Nat) (validator_address : Address) (offense_event_block : Nat)
  | Jail (slots : Nat × Nat) (validator_address : Address) (offense_event_block : Nat)
      (new_epoch_slot_range : Option (Nat × Nat))
  | FinalizeBatch
  | FinalizeEpoch
deriving DecidableEq

/-- Modelled from the spec: `Blockchain::finalize_previous_batch`.  Each
active validator receives its stake-proportional share of the batch reward,
reduced by `batchReward / numSlots` for each of its slots in the previous
lost-rewards set; the sum of those per-slot penalties is burned (one
`Reward` to the burn address, emitted only when positive); exactly one
`FinalizeBatch` trails the list. -/
def finalize_previous_batch (batchReward numSlots totalStake : Nat)
    (validators : List (Address × Nat)) (lostSlotsOf : Address → Nat)
    (burnAddress : Address) : List Inherent :=
  let perSlot := batchReward / numSlots
  let rewards := validators.map (fun p =>
    Inherent.Reward p.1 (batchReward * p.2 / totalStake - lostSlotsOf p.1 * perSlot))
  let burned := validators.foldr (fun p acc => lostSlotsOf p.1 * perSlot + acc) 0
  rewards ++ (if 0 < burned then [Inherent.Reward burnAddress burned] else []) ++
    [Inherent.FinalizeBatch]

/-- C6: batch finalization always emits exactly one trailing
`FinalizeBatch`; with a single active validator and no punished slots it
yields exactly the 875-coin reward plus `FinalizeBatch` (2 inherents), and
with one of that validator's slots in the previous lost-rewards set it
yields the reward reduced by `875 / SLOTS`, a burn reward of `875 / SLOTS`,
and `FinalizeBatch` (3 inherents), at `SLOTS = 512`. -/
theorem finalize_previous_batch_contract :
    (∀ batchReward numSlots totalStake validators lostSlotsOf burnAddress,
      (finalize_previous_batch batchReward numSlots totalStake validators lostSlotsOf
          burnAddress).getLast? = some .FinalizeBatch ∧
      (finalize_previous_batch batchReward numSlots totalStake validators lostSlotsOf
          burnAddress).count .FinalizeBatch = 1) ∧
    (finalize_previous_batch 875 512 100 [(9, 100)] (fun _ => 0) 0 =
      [.Reward 9 875, .FinalizeBatch]) ∧
    (finalize_previous_batch 875 512 100 [(9, 100)] (fun a => if a = 9 then 1 else 0) 0 =
      [.Reward 9 (875 - 875 / 512), .Reward 0 (875 / 512), .FinalizeBatch]) := by
  refine ⟨?_, by decide, by decide⟩
  intro batchReward numSlots totalStake validators lostSlotsOf burnAddress
  constructor
  · simp only [finalize_previous_batch]
    rw [List.getLast?_concat]
  · simp only [finalize_previous_batch]
    rw [List.count_append, List.count_append]
    have h1 : (validators.map (fun p =>
        Inherent.Reward p.1 (batchReward * p.2 / totalStake -
          lostSlotsOf p.1 * (batchReward / numSlots)))).count Inherent.FinalizeBatch = 0 := by
      rw [List.count_eq_zero]
      intro hmem
      rw [List.mem_map] at hmem
      obtain ⟨p, _, hp⟩ := hmem
      exact Inherent.noConfusion hp
    have h2 : (if 0 < validators.foldr (fun p acc =>
        lostSlotsOf p.1 * (batchReward / numSlots) + acc) 0 then
          [Inherent.Reward burnAddress (validators.foldr (fun p acc =>
            lostSlotsOf p.1 * (batchReward / numSlots) + acc) 0)]
        else []).count Inherent.FinalizeBatch = 0 := by
      split
      · rw [List.count_eq_zero]
        intro hmem
        rw [List.mem_singleton] at hmem
        exact Inherent.noConfusion hmem
      · rfl
    rw [h1, h2]
    rfl

end Albatross

namespace Albatross

/-- Modelled from the spec: the data `create_punishment_inherents` reads off
a fork proof — the offending validator and the offense block number. -/
structure ForkProofRecord where
  validator_address : Address
  offense_event_block : Nat
deriving DecidableEq

/-- Modelled from the spec: the `Jail` inherent generated for one fork
proof.  It carries the validator's slots in the offense epoch, and
`new_epoch_slot_range` is `some` (the validator's slots in the reporting
epoch) exactly when the reporting block lies in a later epoch than the
offense, else `none`.  `Policy::epoch_at` and the slot lookups enter as
function parameters. -/
def mkJail (epochAt : Nat → Nat) (offenseSlots newEpochSlots : Address → Nat × Nat)
    (block_number : Nat) (p : ForkProofRecord) : Inherent :=
  .Jail (offenseSlots p.validator_address) p.validator_address p.offense_event_block
    (if epochAt p.offense_event_block < epochAt block_number
      then some (newEpochSlots p.validator_address) else none)

/-- Modelled from the spec: `create_punishment_inherents` restricted to fork
proofs — deduplicate by (validator, offense block) and emit one `Jail` per
distinct offense. -/
def create_punishment_inherents (epochAt : Nat → Nat)
    (offenseSlots newEpochSlots : Address → Nat × Nat) (block_number : Nat)
    (fork_proofs : List ForkProofRecord) : List Inherent :=
  fork_proofs.dedup.map (mkJail epochAt offenseSlots newEpochSlots block_number)

/-- C7: every fork proof yields its `Jail` inherent in the output —
`new_epoch_slot_range = none` when the reporting block shares the offense's
epoch (or any non-later epoch) and `some` of the validator's
reporting-epoch slots when the reporting epoch is later — and every output
inherent is the `Jail` of some listed fork proof. -/
theorem punishment_inherents_contract (epochAt : Nat → Nat)
    (offenseSlots newEpochSlots : Address → Nat × Nat) (bn : Nat)
    (proofs : List ForkProofRecord) :
    (∀ p ∈ proofs,
      Inherent.Jail (offenseSlots p.validator_address) p.validator_address
        p.offense_event_block
        (if epochAt p.offense_event_block < epochAt bn
          then some (newEpochSlots p.validator_address) else none) ∈
        create_punishment_inherents epochAt offenseSlots newEpochSlots bn proofs) ∧
    (∀ i ∈ create_punishment_inherents epochAt offenseSlots newEpochSlots bn proofs,
      ∃ p ∈ proofs,
        i = Inherent.Jail (offenseSlots p.validator_address) p.validator_address
          p.offense_event_block
          (if epochAt p.offense_event_block < epochAt bn
            then some (newEpochSlots p.validator_address) else none)) := by
  constructor
  · intro p hp
    exact List.mem_map_of_mem _ (List.mem_dedup.2 hp)
  · intro i hi
    rw [create_punishment_inherents, List.mem_map] at hi
    obtain ⟨p, hp, rfl⟩ := hi
    exact ⟨p, List.mem_dedup.1 hp, rfl⟩

/-- Witness for C7: a fork proof reported in the same epoch as its offense
yields a `Jail` inherent with `new_epoch_slot_range = none`. -/
theorem punishment_inherents_contract_witness :
    Inherent.Jail (3, 4) 7 10 none ∈
      create_punishment_inherents (fun n => n / 100) (fun _ => (3, 4)) (fun _ => (5, 6))
        50 [⟨7, 10⟩] :=
  (punishment_inherents_contract (fun n => n / 100) (fun _ => (3, 4)) (fun _ => (5, 6))
    50 [⟨7, 10⟩]).1 ⟨7, 10⟩ (by simp)

end Albatross
